import Mathlib

/-!
Verification development for the client-side dubbing pipeline in
`src/app/layout.tsx` (the `handleStart` pipeline, the `Step` status type,
the three OpenAI service wrappers, and the `maxMinutes` input handler).

Modelling conventions:
* JavaScript strings are sequences of UTF-16 code units; we embed them as
  `List Nat` (`JStr`).  String literals from the source appear as explicit
  code-unit lists, each annotated with the literal it denotes.
* The ffmpeg.wasm virtual filesystem is an association list from file name
  to file data.  `ffmpeg.deleteFile` wrapped in `try { } catch { }` is a
  best-effort removal, `ffmpeg.writeFile` an upsert.
* The external services (transcription, chat-completion translation,
  text-to-speech) and the media engine (segment count produced by the
  segment muxer, chunk payloads) are an environment of response functions;
  `res.ok` holds exactly when the HTTP status is in [200, 300).
* The source memoizes `ffmpegRef.current` before initialization
  (layout.tsx line 66); the model treats the engine handle as the loaded
  engine reached through `ensureFFmpeg`, i.e. it models the pipeline logic
  that the surrounding component intends to run.
* Asynchronous sequential awaits become sequential pure state passing.
-/

/-- JavaScript strings as lists of UTF-16 code units. -/
abbrev JStr := List Nat

/-- Code units of the literal "seg_". -/
def segUnderscore : JStr := [115, 101, 103, 95]

/-- Code units of the literal ".wav". -/
def wavExt : JStr := [46, 119, 97, 118]

/-- Code units of the literal "tts_" (the per-chunk output name tag). -/
def ttsTag : JStr := [116, 116, 115, 95]

/-- Code units of the literal ".webm". -/
def webmExt : JStr := [46, 119, 101, 98, 109]

/-- Code units of the literal "input.mp4". -/
def inputMp4 : JStr := [105, 110, 112, 117, 116, 46, 109, 112, 52]

/-- Code units of the literal "input.webm". -/
def inputWebm : JStr := [105, 110, 112, 117, 116, 46, 119, 101, 98, 109]

/-- Code units of the literal "audio.wav". -/
def audioWav : JStr := [97, 117, 100, 105, 111, 46, 119, 97, 118]

/-- Code units of the literal "segments.txt". -/
def segmentsTxt : JStr := [115, 101, 103, 109, 101, 110, 116, 115, 46, 116, 120, 116]

/-- Code units of the literal "concat.txt". -/
def concatTxt : JStr := [99, 111, 110, 99, 97, 116, 46, 116, 120, 116]

/-- Code units of the literal "dubbed.wav". -/
def dubbedWav : JStr := [100, 117, 98, 98, 101, 100, 46, 119, 97, 118]

/-- Code units of the literal "output.webm". -/
def outputWebm : JStr := [111, 117, 116, 112, 117, 116, 46, 119, 101, 98, 109]

/-- Code units of the literal "file '" (the concat-list line opener). -/
def fileQuote : JStr := [102, 105, 108, 101, 32, 39]

/-- Decimal digits of `n`, most significant first, via a fuel-indexed
structural recursion (`digitsOfAux fuel n` is correct whenever `n ≤ fuel`). -/
def digitsOfAux : Nat → Nat → List Nat
  | 0, n => [n]
  | f + 1, n => if n < 10 then [n] else digitsOfAux f (n / 10) ++ [n % 10]

/-- Decimal digits of `n`, most significant first. -/
def digitsOf (n : Nat) : List Nat := digitsOfAux n n

/-- The digit sequence printed by the printf conversion `%03d`: the decimal
digits left-padded with zeros to a minimum width of 3. -/
def pad3 (n : Nat) : List Nat :=
  List.replicate (3 - (digitsOf n).length) 0 ++ digitsOf n

/-- The segment file name `seg_%03d.wav` produced for chunk index `n` by
the ffmpeg segment muxer invocation (layout.tsx line 117). -/
def segName (n : Nat) : JStr :=
  segUnderscore ++ (pad3 n).map (fun d => 48 + d) ++ wavExt

/-- The ECMAScript default string comparison used by `Array.prototype.sort`
(layout.tsx line 121): lexicographic comparison of UTF-16 code units,
where a proper prefix sorts first. -/
def lexLt : JStr → JStr → Bool
  | [], [] => false
  | [], _ :: _ => true
  | _ :: _, [] => false
  | a :: as, b :: bs => if a < b then true else if b < a then false else lexLt as bs

/-- `a` sorts no later than `b` under the default JS string comparison. -/
def lexLe (a b : JStr) : Bool := !(lexLt b a)

/-- Insertion into a sorted list under `lexLe`. -/
def insertLe (x : JStr) : List JStr → List JStr
  | [] => [x]
  | y :: ys => if lexLe x y then x :: y :: ys else y :: insertLe x ys

/-- `Array.prototype.sort()` with the default comparator, modelled as a
sorted permutation under `lexLe` (insertion sort). -/
def sortJs : List JStr → List JStr
  | [] => []
  | x :: xs => insertLe x (sortJs xs)

/-- The listing filter `n.startsWith("seg_") && n.endsWith(".wav")`
(layout.tsx line 121). -/
def isSegFile (n : JStr) : Bool :=
  segUnderscore.isPrefixOf n && wavExt.isSuffixOf n

/-- Data stored for one file of the ffmpeg.wasm virtual filesystem:
opaque audio bytes, a text file, or a concatenated track (the ordered
payloads it was assembled from). -/
inductive FData where
  | bytes (b : Nat)
  | text (t : JStr)
  | track (bs : List Nat)
deriving DecidableEq

/-- The ffmpeg.wasm virtual filesystem: an association list from file name
to file data (each name occurs at most once along the code's own writes). -/
abbrev FS := List (JStr × FData)

/-- `try { await ffmpeg.deleteFile(n) } catch {}`: best-effort removal. -/
def fsDelete (n : JStr) : FS → FS
  | [] => []
  | (m, d) :: rest => if m = n then fsDelete n rest else (m, d) :: fsDelete n rest

/-- `ffmpeg.writeFile(n, d)`: upsert, appended at the end of the listing. -/
def fsWrite (n : JStr) (d : FData) (fs : FS) : FS := fsDelete n fs ++ [(n, d)]

/-- `ffmpeg.readFile(n)` as a lookup. -/
def fsLookup (n : JStr) : FS → Option FData
  | [] => none
  | (m, d) :: rest => if m = n then some d else fsLookup n rest

/-- The names returned by `ffmpeg.listDir("/")`. -/
def fsNames (fs : FS) : List JStr := fs.map Prod.fst

/-- `arr.slice(0, e)` for a possibly negative JS end index: a negative end
counts from the end of the array, clamped at 0. -/
def jsSliceTo (l : List JStr) (e : Int) : List JStr :=
  if e < 0 then l.take ((l.length + e).toNat) else l.take e.toNat

/-- The status values of the run (the `Step` union type,
layout.tsx lines 32–42). -/
inductive Step where
  | idle
  | preparing
  | extracting
  | segmenting
  | transcribing
  | translating
  | synthesizing
  | concatenating
  | muxing
  | done
deriving DecidableEq

/-- The errors `handleStart` and the service wrappers can throw, one
constructor per distinct `throw new Error(...)` message of the source. -/
inductive RunError where
  /-- "Missing OpenAI API key" -/
  | missingApiKey
  /-- "No video uploaded" -/
  | noVideoUploaded
  /-- "No segments produced" -/
  | noSegmentsProduced
  /-- `Transcription failed: status` -/
  | transcriptionFailed (status : Nat)
  /-- `Translation failed: status` -/
  | translationFailed (status : Nat)
  /-- `TTS failed: status` -/
  | ttsFailed (status : Nat)
  /-- an ffmpeg.wasm filesystem read of a missing file -/
  | fsReadError
deriving DecidableEq

/-- An HTTP response as seen through `fetch`: a status code and a parsed
body. -/
structure HttpResp (α : Type) where
  status : Nat
  body : α

/-- `res.ok`: the status is in the inclusive range 200–299. -/
def respOk {α : Type} (r : HttpResp α) : Bool :=
  decide (200 ≤ r.status) && decide (r.status < 300)

/-- The environment of external collaborators of one run: whether the
media engine is already loaded, the chunk payloads and chunk count the
segment muxer produces, and the three services' response functions (each
keyed by the bearer credential and the request payload the source sends). -/
structure Env where
  ffmpegLoaded : Bool
  chunkData : Nat → Nat
  segCount : Nat
  transcribeResp : JStr → Nat → HttpResp JStr
  translateResp : JStr → JStr → JStr → HttpResp (Option JStr)
  ttsResp : JStr → JStr → JStr → HttpResp Nat

/-- `transcribeWithOpenAI` (layout.tsx lines 277–292): posts the chunk
audio, throws `Transcription failed: status` on a non-ok response, and
returns `data.text` otherwise. -/
def transcribeWithOpenAI (env : Env) (apiKey : JStr) (audio : Nat) :
    Except RunError JStr :=
  let res := env.transcribeResp apiKey audio
  if respOk res then .ok res.body else .error (.transcriptionFailed res.status)

/-- `translateWithOpenAI` (layout.tsx lines 294–314): posts the transcript
and target language, throws `Translation failed: status` on a non-ok
response, and otherwise returns `data.choices?.[0]?.message?.content || ""`
— a missing, null or empty content field becomes the empty string. -/
def translateWithOpenAI (env : Env) (apiKey : JStr) (text targetLang : JStr) :
    Except RunError JStr :=
  let res := env.translateResp apiKey text targetLang
  if respOk res then .ok ((res.body).getD []) else .error (.translationFailed res.status)

/-- `ttsWithOpenAI` (layout.tsx lines 316–333): posts the text and voice,
throws `TTS failed: status` on a non-ok response, and returns the audio
bytes otherwise. -/
def ttsWithOpenAI (env : Env) (apiKey : JStr) (text voice : JStr) :
    Except RunError Nat :=
  let res := env.ttsResp apiKey text voice
  if respOk res then .ok res.body else .error (.ttsFailed res.status)

/-- One iteration of the per-chunk loop (layout.tsx lines 133–156), up to
the point where the dubbed chunk is about to be written: read the segment,
transcribe, translate, synthesize; yields the output name `tts_` ++ name
and the synthesized bytes. -/
def dubChunk (env : Env) (apiKey targetLang voice : JStr) (fs : FS)
    (sName : JStr) : Except RunError (JStr × Nat) :=
  match fsLookup sName fs with
  | some (.bytes segData) =>
    match transcribeWithOpenAI env apiKey segData with
    | .error e => .error e
    | .ok transcript =>
      match translateWithOpenAI env apiKey transcript targetLang with
      | .error e => .error e
      | .ok translated =>
        match ttsWithOpenAI env apiKey translated voice with
        | .error e => .error e
        | .ok ttsBuf => .ok (ttsTag ++ sName, ttsBuf)
  | _ => .error .fsReadError

/-- The per-chunk loop (layout.tsx lines 133–156): processes the used
segments strictly sequentially, writing each synthesized chunk to the
filesystem and accumulating `dubbedSegmentNames`; the first failure stops
the loop.  Returns the filesystem, the accumulated names, and the error if
one occurred. -/
def processSegments (env : Env) (apiKey targetLang voice : JStr) :
    List JStr → FS → List JStr → FS × List JStr × Option RunError
  | [], fs, acc => (fs, acc, none)
  | sName :: rest, fs, acc =>
    match dubChunk env apiKey targetLang voice fs sName with
    | .error e => (fs, acc, some e)
    | .ok (outName, ttsBuf) =>
      processSegments env apiKey targetLang voice rest
        (fsWrite outName (.bytes ttsBuf) fs) (acc ++ [outName])

/-- The ffmpeg segment muxer invocation (layout.tsx line 117): writes
`seg_%03d.wav` for every chunk index below the produced chunk count,
overwriting files of the same name and leaving every other file in place. -/
def execSegment (env : Env) (fs : FS) : FS :=
  (List.range env.segCount).foldl
    (fun f i => fsWrite (segName i) (.bytes (env.chunkData i)) f) fs

/-- `dubbedSegmentNames.map(n => "file '" + n + "'")` for one name. -/
def concatLine (n : JStr) : JStr := fileQuote ++ n ++ [39]

/-- `Array.prototype.join("\n")`. -/
def joinNl : List JStr → JStr
  | [] => []
  | [x] => x
  | x :: y :: t => x ++ 10 :: joinNl (y :: t)

/-- Splitting a text on newline code units (how the concat demuxer reads
`concat.txt` line by line). -/
def splitNl : JStr → List JStr
  | [] => [[]]
  | c :: rest =>
    if c = 10 then [] :: splitNl rest
    else
      match splitNl rest with
      | [] => [[c]]
      | h :: t => (c :: h) :: t

/-- Parsing one `file 'name'` line of the concat list. -/
def parseConcatLine (l : JStr) : Option JStr :=
  if fileQuote.isPrefixOf l && [39].isSuffixOf l then
    some ((l.drop 6).dropLast)
  else none

/-- The ffmpeg concat demuxer invocation (layout.tsx line 166): reads
`concat.txt`, resolves each listed name, and writes `dubbed.wav` as the
ordered concatenation of the listed files' payloads. -/
def execConcat (fs : FS) : FS :=
  match fsLookup concatTxt fs with
  | some (.text t) =>
    let names := (splitNl t).filterMap parseConcatLine
    let payloads := names.map fun n =>
      match fsLookup n fs with
      | some (.bytes b) => b
      | _ => 0
    fsWrite dubbedWav (.track payloads) fs
  | _ => fsWrite dubbedWav (.track []) fs

/-- The ffmpeg mux invocation (layout.tsx lines 174–185): writes
`output.webm` carrying the video stream of the input (opaque here) and the
audio of `dubbed.wav`; the artifact is modelled by its audio track. -/
def execMux (fs : FS) : FS :=
  let audio :=
    match fsLookup dubbedWav fs with
    | some (.track bs) => bs
    | _ => []
  fsWrite outputWebm (.track audio) fs

/-- `Math.min(files.length, Math.ceil(maxMinutes))` followed by
`files.slice(0, maxSegments)` (layout.tsx lines 125–126).  `maxMinutes`
holds a `parseInt` result, so it is integral and `Math.ceil` is the
identity on it. -/
def budget (files : List JStr) (maxMinutes : Int) : List JStr :=
  jsSliceTo files (min (files.length : Int) maxMinutes)

/-- `listDir`, filter and sort (layout.tsx lines 120–121). -/
def listSegFiles (fs : FS) : List JStr :=
  sortJs ((fsNames fs).filter isSegFile)

/-- Everything `handleStart` leaves behind: the outcome (a thrown error or
normal completion), the filesystem, the sequence of `setStatus` calls of
this run, the last status set (or the prior status if none was set), the
download handle, and the values of the run's `files`, `usedSegments` and
`dubbedSegmentNames` locals (empty when the run ends before they are
assigned). -/
structure RunOut where
  result : Except RunError Unit
  fs : FS
  trace : List Step
  status : Step
  downloadUrl : Option (List Nat)
  files : List JStr
  usedSegments : List JStr
  dubbedSegmentNames : List JStr

/-- The pipeline `handleStart` (layout.tsx lines 90–195), with the React
state threaded explicitly: the prior status, the prior download handle
(cleared unconditionally by `setDownloadUrl(null)` at entry, hence unused),
and the prior virtual filesystem.  `apiKey`, `videoName`, `targetLang`,
`voice` and `maxMinutes` are the component state the run reads. -/
def handleStart (env : Env) (apiKey : JStr) (videoName : Option JStr)
    (targetLang voice : JStr) (maxMinutes : Int) (status0 : Step)
    (downloadUrl0 : Option (List Nat)) (fs0 : FS) : RunOut :=
  -- setDownloadUrl(null); if (!apiKey) throw; if (!videoFile) throw
  if apiKey = [] then
    ⟨.error .missingApiKey, fs0, [], status0, none, [], [], []⟩
  else
    match videoName with
    | none => ⟨.error .noVideoUploaded, fs0, [], status0, none, [], [], []⟩
    | some vName =>
      -- ensureFFmpeg: sets "preparing" only when the engine is not yet loaded
      let t1 : List Step := if env.ffmpegLoaded then [] else [.preparing]
      -- Reset FS: best-effort deletes of input.mp4 and audio.wav
      let fs1 := fsDelete audioWav (fsDelete inputMp4 fs0)
      let t2 := t1 ++ [.extracting]
      let inputName := if webmExt.isSuffixOf vName then inputWebm else inputMp4
      let fs2 := fsWrite inputName (.bytes 0) fs1
      -- exec: extract mono 16k wav for ASR
      let fs3 := fsWrite audioWav (.bytes 0) fs2
      let t3 := t2 ++ [.segmenting]
      let fs4 := fsDelete segmentsTxt fs3
      let fs5 := execSegment env fs4
      let files := listSegFiles fs5
      if files = [] then
        ⟨.error .noSegmentsProduced, fs5, t3, .segmenting, none, files, [], []⟩
      else
        let usedSegments := budget files maxMinutes
        let t4 := t3 ++ [.transcribing]
        match processSegments env apiKey targetLang voice usedSegments fs5 [] with
        | (fs6, dubbed, some e) =>
          ⟨.error e, fs6, t4, .transcribing, none, files, usedSegments, dubbed⟩
        | (fs6, dubbed, none) =>
          let t5 := t4 ++ [.concatenating]
          let listContent := joinNl (dubbed.map concatLine)
          let fs7 := fsWrite concatTxt (.text listContent) fs6
          let fs8 := execConcat fs7
          let t6 := t5 ++ [.muxing]
          let fs9 := fsDelete outputWebm fs8
          let fs10 := execMux fs9
          let outData :=
            match fsLookup outputWebm fs10 with
            | some (.track bs) => bs
            | _ => []
          ⟨.ok (), fs10, t6 ++ [.done], .done, some outData, files, usedSegments, dubbed⟩

/-- ECMAScript `parseInt(s)` restricted to radix-10 numerals as a number
input produces them: an optional sign followed by leading decimal digits;
`none` models `NaN`. -/
def jsParseInt (s : JStr) : Option Int :=
  let digitsVal : JStr → Nat := fun ds => ds.foldl (fun a c => a * 10 + (c - 48)) 0
  let takeDigits : JStr → JStr := fun l => l.takeWhile (fun c => decide (48 ≤ c) && decide (c ≤ 57))
  match s with
  | 45 :: rest =>
    if takeDigits rest = [] then none else some (-(digitsVal (takeDigits rest) : Int))
  | 43 :: rest =>
    if takeDigits rest = [] then none else some ((digitsVal (takeDigits rest) : Int))
  | _ =>
    if takeDigits s = [] then none else some ((digitsVal (takeDigits s) : Int))

/-- The max-minutes input handler
`(e) => setMaxMinutes(parseInt(e.target.value || "45"))`
(layout.tsx line 249): an empty value (falsy) falls back to the literal
"45"; the parsed value is stored without any clamping. -/
def onMaxMinutesChange (s : JStr) : Option Int :=
  jsParseInt (if s = [] then [52, 53] else s)

/-- The initial `maxMinutes` state, `useState(45)` (layout.tsx line 53). -/
def maxMinutesInit : Int := 45

/-- The transcript of chunk `i` when the transcription service answers
successfully: the body of its response to the chunk's audio payload. -/
def transcriptText (env : Env) (apiKey : JStr) (i : Nat) : JStr :=
  (env.transcribeResp apiKey (env.chunkData i)).body

/-- The translation of chunk `i` on a successful translation response
(a missing content field read as the empty string). -/
def translatedText (env : Env) (apiKey targetLang : JStr) (i : Nat) : JStr :=
  ((env.translateResp apiKey (transcriptText env apiKey i) targetLang).body).getD []

/-- The synthesized audio payload of chunk `i` on a successful synthesis
response. -/
def synthBytes (env : Env) (apiKey targetLang voice : JStr) (i : Nat) : Nat :=
  (env.ttsResp apiKey (translatedText env apiKey targetLang i) voice).body

/-! ### Decimal digits and the `seg_%03d.wav` naming scheme -/

theorem digitsOfAux_small (f n : Nat) (h : n < 10) : digitsOfAux f n = [n] := by
  cases f <;> simp [digitsOfAux, h]

theorem digitsOfAux_ge (f n : Nat) (h10 : 10 ≤ n) (hf : n ≤ f) :
    digitsOfAux f n = digitsOfAux (f - 1) (n / 10) ++ [n % 10] := by
  cases f with
  | zero => omega
  | succ g =>
    simp only [digitsOfAux, Nat.succ_sub_one]
    rw [if_neg (by omega)]

theorem digitsOf_small (n : Nat) (h : n < 10) : digitsOf n = [n] :=
  digitsOfAux_small n n h

theorem digitsOf_two (n : Nat) (h1 : 10 ≤ n) (h2 : n < 100) :
    digitsOf n = [n / 10, n % 10] := by
  unfold digitsOf
  rw [digitsOfAux_ge n n h1 (Nat.le_refl n), digitsOfAux_small _ _ (by omega)]
  rfl

theorem digitsOf_three (n : Nat) (h1 : 100 ≤ n) (h2 : n < 1000) :
    digitsOf n = [n / 100, n / 10 % 10, n % 10] := by
  unfold digitsOf
  rw [digitsOfAux_ge n n (by omega) (Nat.le_refl n),
    digitsOfAux_ge (n - 1) (n / 10) (by omega) (by omega),
    digitsOfAux_small _ _ (by omega)]
  have h3 : n / 10 / 10 = n / 100 := by omega
  rw [h3]
  rfl

theorem pad3_eq (n : Nat) (h : n < 1000) :
    pad3 n = [n / 100, n / 10 % 10, n % 10] := by
  unfold pad3
  by_cases h1 : n < 10
  · rw [digitsOf_small n h1]
    have e0 : n / 100 = 0 := by omega
    have e1 : n / 10 % 10 = 0 := by omega
    have e2 : n % 10 = n := by omega
    rw [e0, e1, e2]
    rfl
  · by_cases h2 : n < 100
    · rw [digitsOf_two n (by omega) h2]
      have e0 : n / 100 = 0 := by omega
      have e1 : n / 10 % 10 = n / 10 := by omega
      rw [e0, e1]
      rfl
    · rw [digitsOf_three n (by omega) h]
      rfl

theorem lexLt_cons (a b : Nat) (x y : JStr) :
    lexLt (a :: x) (b :: y) =
      if a < b then true else if b < a then false else lexLt x y := rfl

theorem lexLt_cons_same (c : Nat) (x y : JStr) :
    lexLt (c :: x) (c :: y) = lexLt x y := by
  simp [lexLt_cons]

theorem lexLt_self (l : JStr) : lexLt l l = false := by
  induction l with
  | nil => rfl
  | cons c t ih => rw [lexLt_cons_same, ih]

theorem lexLt_append_same (p x y : JStr) :
    lexLt (p ++ x) (p ++ y) = lexLt x y := by
  induction p with
  | nil => rfl
  | cons c t ih => rw [List.cons_append, List.cons_append, lexLt_cons_same, ih]

theorem lexLt_digits3 (a2 a1 a0 b2 b1 b0 : Nat) (t : JStr)
    (ha1 : a1 < 10) (ha0 : a0 < 10) (hb1 : b1 < 10) (hb0 : b0 < 10) :
    (lexLt ([48 + a2, 48 + a1, 48 + a0] ++ t) ([48 + b2, 48 + b1, 48 + b0] ++ t)
        = true) ↔
      100 * a2 + 10 * a1 + a0 < 100 * b2 + 10 * b1 + b0 := by
  simp only [List.cons_append, List.nil_append, lexLt_cons, lexLt_self]
  split_ifs <;> simp <;> omega

theorem segName_lt_iff (i j : Nat) (hi : i < 1000) (hj : j < 1000) :
    (lexLt (segName i) (segName j) = true) ↔ i < j := by
  unfold segName
  rw [pad3_eq i hi, pad3_eq j hj]
  simp only [List.map_cons, List.map_nil]
  rw [List.append_assoc, List.append_assoc, lexLt_append_same]
  rw [lexLt_digits3 _ _ _ _ _ _ _ (by omega) (by omega) (by omega) (by omega)]
  omega

theorem segName_lt_false (i j : Nat) (hi : i < 1000) (hj : j < 1000)
    (h : ¬ i < j) : lexLt (segName i) (segName j) = false := by
  cases hb : lexLt (segName i) (segName j) with
  | false => rfl
  | true => exact absurd ((segName_lt_iff i j hi hj).mp hb) h

theorem segName_inj (i j : Nat) (hi : i < 1000) (hj : j < 1000)
    (h : segName i = segName j) : i = j := by
  by_contra hne
  have hc : i < j ∨ j < i := by omega
  cases hc with
  | inl hlt =>
    have hb := (segName_lt_iff i j hi hj).mpr hlt
    rw [h, lexLt_self] at hb
    cases hb
  | inr hlt =>
    have hb := (segName_lt_iff j i hj hi).mpr hlt
    rw [h, lexLt_self] at hb
    cases hb

/-! ### Prefix/suffix checks, sorting, and filesystem lemmas -/

theorem isPrefixOf_append_self (p rest : JStr) :
    p.isPrefixOf (p ++ rest) = true := by
  induction p with
  | nil => simp [List.isPrefixOf]
  | cons a t ih => simp [List.isPrefixOf, ih]

theorem isSuffixOf_append_self (s front : JStr) :
    s.isSuffixOf (front ++ s) = true := by
  simp [List.isSuffixOf, List.reverse_append, isPrefixOf_append_self]

theorem isSegFile_segName (n : Nat) : isSegFile (segName n) = true := by
  unfold isSegFile segName
  rw [Bool.and_eq_true]
  constructor
  · rw [List.append_assoc]
    exact isPrefixOf_append_self _ _
  · exact isSuffixOf_append_self _ _

theorem insertLe_length (x : JStr) (l : List JStr) :
    (insertLe x l).length = l.length + 1 := by
  induction l with
  | nil => rfl
  | cons y ys ih =>
    rw [insertLe]
    split
    · simp
    · simp [ih]

theorem sortJs_length (l : List JStr) : (sortJs l).length = l.length := by
  induction l with
  | nil => rfl
  | cons x xs ih =>
    rw [sortJs, insertLe_length, ih]
    rfl

theorem sortJs_pairwise_id (l : List JStr)
    (h : l.Pairwise (fun a b => lexLe a b = true)) : sortJs l = l := by
  induction l with
  | nil => rfl
  | cons x xs ih =>
    rw [List.pairwise_cons] at h
    rw [sortJs, ih h.2]
    cases xs with
    | nil => rfl
    | cons y ys => rw [insertLe, if_pos (h.1 y (by simp))]

theorem fsLookup_append (m : JStr) (l1 l2 : FS) :
    fsLookup m (l1 ++ l2) =
      match fsLookup m l1 with
      | some d => some d
      | none => fsLookup m l2 := by
  induction l1 with
  | nil => simp [fsLookup]
  | cons p rest ih =>
    obtain ⟨k, e⟩ := p
    by_cases hk : k = m <;> simp [fsLookup, hk, ih]

theorem fsLookup_delete_self (n : JStr) (fs : FS) :
    fsLookup n (fsDelete n fs) = none := by
  induction fs with
  | nil => rfl
  | cons p rest ih =>
    obtain ⟨k, e⟩ := p
    by_cases hk : k = n <;> simp [fsDelete, fsLookup, hk, ih]

theorem fsLookup_delete_ne (n m : JStr) (fs : FS) (h : m ≠ n) :
    fsLookup m (fsDelete n fs) = fsLookup m fs := by
  induction fs with
  | nil => rfl
  | cons p rest ih =>
    obtain ⟨k, e⟩ := p
    have hnm : ¬ (n = m) := fun hh => h hh.symm
    by_cases hk : k = n
    · simp [fsDelete, fsLookup, hk, hnm, ih]
    · by_cases hkm : k = m <;> simp [fsDelete, fsLookup, hk, hkm, hnm, h, ih]

theorem fsLookup_write_self (n : JStr) (d : FData) (fs : FS) :
    fsLookup n (fsWrite n d fs) = some d := by
  unfold fsWrite
  rw [fsLookup_append, fsLookup_delete_self]
  simp [fsLookup]

theorem fsLookup_write_ne (n m : JStr) (d : FData) (fs : FS) (h : m ≠ n) :
    fsLookup m (fsWrite n d fs) = fsLookup m fs := by
  unfold fsWrite
  rw [fsLookup_append, fsLookup_delete_ne n m fs h]
  have hnm : ¬ (n = m) := fun hh => h hh.symm
  cases hl : fsLookup m fs <;> simp [hl, fsLookup, hnm]

theorem fsNames_write (n : JStr) (d : FData) (fs : FS) :
    fsNames (fsWrite n d fs) = fsNames (fsDelete n fs) ++ [n] := by
  simp [fsWrite, fsNames]

theorem fsNames_delete_sub (n : JStr) (fs : FS) :
    ∀ m, m ∈ fsNames (fsDelete n fs) → m ∈ fsNames fs := by
  induction fs with
  | nil => intro m h; exact h
  | cons p rest ih =>
    obtain ⟨k, e⟩ := p
    intro m h
    by_cases hk : k = n
    · simp only [fsDelete, if_pos hk] at h
      simp only [fsNames, List.map_cons, List.mem_cons]
      exact Or.inr (ih m h)
    · simp only [fsDelete, if_neg hk] at h
      simp only [fsNames, List.map_cons, List.mem_cons] at h ⊢
      rcases h with h | h
      · exact Or.inl h
      · exact Or.inr (ih m h)

theorem fsDelete_of_not_mem (n : JStr) (fs : FS) (h : n ∉ fsNames fs) :
    fsDelete n fs = fs := by
  induction fs with
  | nil => rfl
  | cons p rest ih =>
    obtain ⟨k, e⟩ := p
    simp [fsNames] at h
    rw [fsDelete, if_neg (fun hh => h.1 hh.symm), ih (by simpa [fsNames] using h.2)]

/-! ### The segment muxer's effect on the working area -/

theorem clean_fsDelete (n : JStr) (fs : FS)
    (h : ∀ m ∈ fsNames fs, isSegFile m = false) :
    ∀ m ∈ fsNames (fsDelete n fs), isSegFile m = false :=
  fun m hm => h m (fsNames_delete_sub n fs m hm)

theorem clean_fsWrite (n : JStr) (d : FData) (fs : FS)
    (h : ∀ m ∈ fsNames fs, isSegFile m = false) (hn : isSegFile n = false) :
    ∀ m ∈ fsNames (fsWrite n d fs), isSegFile m = false := by
  intro m hm
  rw [fsNames_write] at hm
  rcases List.mem_append.mp hm with hm | hm
  · exact clean_fsDelete n fs h m hm
  · rw [List.mem_singleton.mp hm]
    exact hn

theorem segFold_filter (env : Env) :
    ∀ k : Nat, k ≤ 1000 → ∀ fs : FS,
    (∀ m ∈ fsNames fs, isSegFile m = false) →
    (fsNames ((List.range k).foldl
        (fun f i => fsWrite (segName i) (FData.bytes (env.chunkData i)) f) fs)).filter
        isSegFile =
      (List.range k).map segName := by
  intro k
  induction k with
  | zero =>
    intro _ fs h
    simp only [List.range_zero, List.foldl_nil, List.map_nil]
    exact List.filter_eq_nil_iff.mpr fun a ha => by simp [h a ha]
  | succ k ih =>
    intro hk fs h
    rw [List.range_succ, List.foldl_append, List.foldl_cons, List.foldl_nil]
    have hF := ih (by omega) fs h
    have hnot : segName k ∉ fsNames ((List.range k).foldl
        (fun f i => fsWrite (segName i) (FData.bytes (env.chunkData i)) f) fs) := by
      intro hmem
      have hmf : segName k ∈ ((fsNames ((List.range k).foldl
          (fun f i => fsWrite (segName i) (FData.bytes (env.chunkData i)) f) fs)).filter
          isSegFile) :=
        List.mem_filter.mpr ⟨hmem, isSegFile_segName k⟩
      rw [hF] at hmf
      obtain ⟨j, hj, hjeq⟩ := List.mem_map.mp hmf
      have hjk : j < k := List.mem_range.mp hj
      have : j = k := segName_inj j k (by omega) (by omega) hjeq
      omega
    rw [fsNames_write, fsDelete_of_not_mem _ _ hnot, List.filter_append, hF]
    simp [isSegFile_segName]

theorem segFold_lookup (env : Env) :
    ∀ k : Nat, k ≤ 1000 → ∀ (fs : FS) (i : Nat), i < k →
    fsLookup (segName i) ((List.range k).foldl
        (fun f j => fsWrite (segName j) (FData.bytes (env.chunkData j)) f) fs) =
      some (FData.bytes (env.chunkData i)) := by
  intro k
  induction k with
  | zero => intro _ fs i hi; omega
  | succ k ih =>
    intro hk fs i hi
    rw [List.range_succ, List.foldl_append, List.foldl_cons, List.foldl_nil]
    by_cases hik : i = k
    · subst hik
      exact fsLookup_write_self _ _ _
    · rw [fsLookup_write_ne _ _ _ _
        (fun heq => hik (segName_inj i k (by omega) (by omega) heq))]
      exact ih (by omega) fs i (by omega)

theorem segFold_filter_ne_nil (env : Env) (k : Nat) (fs : FS) (h : k ≠ 0) :
    (fsNames ((List.range k).foldl
        (fun f i => fsWrite (segName i) (FData.bytes (env.chunkData i)) f) fs)).filter
        isSegFile ≠ [] := by
  cases k with
  | zero => exact absurd rfl h
  | succ j =>
    rw [List.range_succ, List.foldl_append, List.foldl_cons, List.foldl_nil,
      fsNames_write, List.filter_append]
    simp [isSegFile_segName]

theorem pairwise_lexLe_segNames :
    ∀ k : Nat, k ≤ 1000 →
    ((List.range k).map segName).Pairwise (fun a b => lexLe a b = true) := by
  intro k
  induction k with
  | zero => intro _; simp
  | succ k ih =>
    intro hk
    rw [List.range_succ, List.map_append, List.pairwise_append]
    refine ⟨ih (by omega), by simp, ?_⟩
    intro a ha b hb
    obtain ⟨j, hj, hjeq⟩ := List.mem_map.mp ha
    have hjk : j < k := List.mem_range.mp hj
    rw [List.map_singleton, List.mem_singleton] at hb
    subst hjeq
    subst hb
    unfold lexLe
    rw [segName_lt_false k j (by omega) (by omega) (by omega)]
    rfl

theorem listSegFiles_segFold (env : Env) (k : Nat) (hk : k ≤ 1000) (fs : FS)
    (h : ∀ m ∈ fsNames fs, isSegFile m = false) :
    listSegFiles ((List.range k).foldl
        (fun f i => fsWrite (segName i) (FData.bytes (env.chunkData i)) f) fs) =
      (List.range k).map segName := by
  unfold listSegFiles
  rw [segFold_filter env k hk fs h]
  exact sortJs_pairwise_id _ (pairwise_lexLe_segNames k hk)

/-! ### The duration budget -/

theorem budget_take (files : List JStr) (m : Int) (hm : 0 ≤ m) :
    budget files m = files.take (min files.length m.toNat) := by
  unfold budget jsSliceTo
  rw [if_neg (by omega)]
  congr 1
  omega

theorem budget_length (files : List JStr) (m : Int) (hm : 0 ≤ m) :
    (budget files m).length = min files.length m.toNat := by
  rw [budget_take files m hm, List.length_take]
  omega

/-! ### The per-chunk dubbing loop -/

theorem segName_ne_ttsName (a : Nat) (x : JStr) : segName a ≠ ttsTag ++ x := by
  intro h
  simp [segName, segUnderscore, ttsTag] at h

theorem ttsName_inj {i j : Nat} (hi : i < 1000) (hj : j < 1000)
    (h : ttsTag ++ segName i = ttsTag ++ segName j) : i = j := by
  apply segName_inj i j hi hj
  simpa [ttsTag] using h

theorem concatTxt_ne_ttsName (x : JStr) : concatTxt ≠ ttsTag ++ x := by
  intro h
  simp [concatTxt, ttsTag] at h

theorem dubChunk_ok (env : Env) (apiKey targetLang voice : JStr) (fs : FS) (i : Nat)
    (hfs : fsLookup (segName i) fs = some (.bytes (env.chunkData i)))
    (hT : respOk (env.transcribeResp apiKey (env.chunkData i)) = true)
    (hTr : respOk (env.translateResp apiKey (transcriptText env apiKey i) targetLang) = true)
    (hS : respOk (env.ttsResp apiKey (translatedText env apiKey targetLang i) voice) = true) :
    dubChunk env apiKey targetLang voice fs (segName i) =
      .ok (ttsTag ++ segName i, synthBytes env apiKey targetLang voice i) := by
  unfold dubChunk
  rw [hfs]
  simp only [transcriptText] at hTr
  simp only [transcriptText, translatedText] at hS
  simp [transcribeWithOpenAI, translateWithOpenAI, ttsWithOpenAI, hT, hTr, hS,
    synthBytes, translatedText, transcriptText]

theorem processSegments_ok (env : Env) (apiKey targetLang voice : JStr)
    (hT : ∀ b, respOk (env.transcribeResp apiKey b) = true)
    (hTr : ∀ t, respOk (env.translateResp apiKey t targetLang) = true)
    (hS : ∀ t, respOk (env.ttsResp apiKey t voice) = true) :
    ∀ (idxs : List Nat) (fs : FS) (acc : List JStr),
    (∀ i ∈ idxs, i < 1000) → idxs.Nodup →
    (∀ i ∈ idxs, fsLookup (segName i) fs = some (.bytes (env.chunkData i))) →
    ∃ fsF,
      processSegments env apiKey targetLang voice (idxs.map segName) fs acc =
        (fsF, acc ++ idxs.map (fun i => ttsTag ++ segName i), none) ∧
      (∀ i ∈ idxs, fsLookup (ttsTag ++ segName i) fsF =
          some (.bytes (synthBytes env apiKey targetLang voice i))) ∧
      (∀ n : JStr, (∀ i ∈ idxs, n ≠ ttsTag ++ segName i) →
          fsLookup n fsF = fsLookup n fs) := by
  intro idxs
  induction idxs with
  | nil =>
    intro fs acc _ _ _
    refine ⟨fs, by simp [processSegments], ?_, fun n _ => rfl⟩
    intro i hi
    exact absurd hi (by simp)
  | cons i0 rest ih =>
    intro fs acc hb hnd hfs
    have hb0 : i0 < 1000 := hb i0 (by simp)
    obtain ⟨hni0, hndrest⟩ := List.nodup_cons.mp hnd
    have hdc := dubChunk_ok env apiKey targetLang voice fs i0
      (hfs i0 (by simp)) (hT _) (hTr _) (hS _)
    obtain ⟨fsF, heq, hlook, hframe⟩ :=
      ih (fsWrite (ttsTag ++ segName i0)
            (.bytes (synthBytes env apiKey targetLang voice i0)) fs)
        (acc ++ [ttsTag ++ segName i0])
        (fun i hi => hb i (by simp [hi])) hndrest
        (fun i hi => by
          rw [fsLookup_write_ne _ _ _ _ (segName_ne_ttsName i _)]
          exact hfs i (by simp [hi]))
    refine ⟨fsF, ?_, ?_, ?_⟩
    · rw [List.map_cons, processSegments, hdc]
      exact heq.trans (by simp)
    · intro i hi
      rcases List.mem_cons.mp hi with hi | hi
      · subst hi
        rw [hframe (ttsTag ++ segName i) (fun j hj hne => by
          have hbj : j < 1000 := hb j (by simp [hj])
          have : i = j := ttsName_inj hb0 hbj hne
          exact hni0 (this ▸ hj))]
        exact fsLookup_write_self _ _ _
      · exact hlook i hi
    · intro n hn
      rw [hframe n (fun i hi => hn i (by simp [hi]))]
      exact fsLookup_write_ne _ _ _ _ (hn i0 (by simp))

/-! ### Concat-list round-trip and final assembly -/

theorem splitNl_no_nl (l : JStr) (h : ∀ c ∈ l, c ≠ 10) : splitNl l = [l] := by
  induction l with
  | nil => rfl
  | cons c rest ih =>
    rw [splitNl, if_neg (h c (by simp)), ih (fun d hd => h d (by simp [hd]))]

theorem splitNl_cons_nl (x rest : JStr) (h : ∀ c ∈ x, c ≠ 10) :
    splitNl (x ++ 10 :: rest) = x :: splitNl rest := by
  induction x with
  | nil => simp [splitNl]
  | cons c t ih =>
    rw [List.cons_append, splitNl, if_neg (h c (by simp)),
      ih (fun d hd => h d (by simp [hd]))]

theorem splitNl_joinNl (ls : List JStr) (hne : ls ≠ [])
    (h : ∀ l ∈ ls, ∀ c ∈ l, c ≠ 10) : splitNl (joinNl ls) = ls := by
  induction ls with
  | nil => exact absurd rfl hne
  | cons x t ih =>
    cases t with
    | nil => exact splitNl_no_nl x (h x (by simp))
    | cons y u =>
      rw [joinNl, splitNl_cons_nl x _ (h x (by simp)),
        ih (by simp) (fun l hl => h l (by simp [hl]))]

theorem parse_concatLine (n : JStr) : parseConcatLine (concatLine n) = some n := by
  unfold parseConcatLine concatLine
  rw [if_pos]
  · rw [List.append_assoc]
    simp [fileQuote, List.dropLast_concat]
  · rw [Bool.and_eq_true]
    refine ⟨?_, isSuffixOf_append_self _ _⟩
    rw [List.append_assoc]
    exact isPrefixOf_append_self _ _

theorem segName_no_nl (i : Nat) : ∀ c ∈ segName i, c ≠ 10 := by
  intro c hc
  rw [segName] at hc
  rcases List.mem_append.mp hc with hc | hc
  · rcases List.mem_append.mp hc with hc | hc
    · fin_cases hc <;> decide
    · obtain ⟨d, _, rfl⟩ := List.mem_map.mp hc
      omega
  · fin_cases hc <;> decide

theorem concatLine_tts_no_nl (i : Nat) :
    ∀ c ∈ concatLine (ttsTag ++ segName i), c ≠ 10 := by
  intro c hc
  rw [concatLine] at hc
  rcases List.mem_append.mp hc with hc | hc
  · rcases List.mem_append.mp hc with hc | hc
    · fin_cases hc <;> decide
    · rcases List.mem_append.mp hc with hc | hc
      · fin_cases hc <;> decide
      · exact segName_no_nl i c hc
  · fin_cases hc <;> decide

theorem filterMap_parse_lines (names : List JStr) :
    (names.map concatLine).filterMap parseConcatLine = names := by
  induction names with
  | nil => rfl
  | cons a t ih => simp [parse_concatLine, ih]

theorem lookup_mux (tr : List Nat) (fs : FS) :
    fsLookup outputWebm
      (execMux (fsDelete outputWebm (fsWrite dubbedWav (FData.track tr) fs))) =
      some (FData.track tr) := by
  have h2 : fsLookup dubbedWav
      (fsDelete outputWebm (fsWrite dubbedWav (FData.track tr) fs)) =
      some (FData.track tr) := by
    rw [fsLookup_delete_ne _ _ _ (by decide)]
    exact fsLookup_write_self _ _ _
  simp only [execMux, h2]
  exact fsLookup_write_self _ _ _

theorem execConcat_track (idxs : List Nat) (pay : Nat → Nat) (fsF : FS)
    (hne : idxs ≠ [])
    (hlook : ∀ i ∈ idxs, fsLookup (ttsTag ++ segName i) fsF =
        some (FData.bytes (pay i))) :
    execConcat (fsWrite concatTxt
        (FData.text (joinNl ((idxs.map (fun i => ttsTag ++ segName i)).map concatLine)))
        fsF) =
      fsWrite dubbedWav (FData.track (idxs.map pay))
        (fsWrite concatTxt
          (FData.text (joinNl ((idxs.map (fun i => ttsTag ++ segName i)).map concatLine)))
          fsF) := by
  have hct : fsLookup concatTxt (fsWrite concatTxt
      (FData.text (joinNl ((idxs.map (fun i => ttsTag ++ segName i)).map concatLine)))
      fsF) = some (FData.text (joinNl
        ((idxs.map (fun i => ttsTag ++ segName i)).map concatLine))) :=
    fsLookup_write_self _ _ _
  have hsplit : splitNl (joinNl ((idxs.map (fun i => ttsTag ++ segName i)).map concatLine)) =
      (idxs.map (fun i => ttsTag ++ segName i)).map concatLine := by
    apply splitNl_joinNl
    · intro h0
      exact hne (List.map_eq_nil_iff.mp (List.map_eq_nil_iff.mp h0))
    · intro l hl
      rw [List.map_map] at hl
      obtain ⟨i, _, rfl⟩ := List.mem_map.mp hl
      exact concatLine_tts_no_nl i
  simp only [execConcat, hct, hsplit, filterMap_parse_lines]
  congr 1
  congr 1
  rw [List.map_map]
  apply List.map_congr_left
  intro i hi
  simp only [Function.comp_apply]
  rw [fsLookup_write_ne _ _ _ _ (fun hh => concatTxt_ne_ttsName _ hh.symm),
    hlook i hi]

theorem concatMux_track (idxs : List Nat) (pay : Nat → Nat) (fsF : FS)
    (hne : idxs ≠ [])
    (hlook : ∀ i ∈ idxs, fsLookup (ttsTag ++ segName i) fsF =
        some (FData.bytes (pay i))) :
    fsLookup outputWebm
      (execMux (fsDelete outputWebm
        (execConcat (fsWrite concatTxt
          (FData.text (joinNl ((idxs.map (fun i => ttsTag ++ segName i)).map concatLine)))
          fsF)))) = some (FData.track (idxs.map pay)) := by
  rw [execConcat_track idxs pay fsF hne hlook]
  exact lookup_mux _ _

/-! ### The end-to-end successful run -/

theorem run_ok (env : Env) (apiKey vName targetLang voice : JStr)
    (m : Int) (status0 : Step) (du0 : Option (List Nat)) (fs0 : FS)
    (hkey : ¬ apiKey = [])
    (hclean : ∀ n ∈ fsNames fs0, isSegFile n = false)
    (hk1 : 1 ≤ env.segCount) (hk2 : env.segCount ≤ 1000)
    (hm : 1 ≤ m)
    (hT : ∀ b, respOk (env.transcribeResp apiKey b) = true)
    (hTr : ∀ t, respOk (env.translateResp apiKey t targetLang) = true)
    (hS : ∀ t, respOk (env.ttsResp apiKey t voice) = true) :
    (handleStart env apiKey (some vName) targetLang voice m status0 du0 fs0).result
        = Except.ok () ∧
    (handleStart env apiKey (some vName) targetLang voice m status0 du0 fs0).files
        = (List.range env.segCount).map segName ∧
    (handleStart env apiKey (some vName) targetLang voice m status0 du0 fs0).usedSegments
        = (List.range (min env.segCount m.toNat)).map segName ∧
    (handleStart env apiKey (some vName) targetLang voice m status0 du0 fs0).dubbedSegmentNames
        = (List.range (min env.segCount m.toNat)).map (fun i => ttsTag ++ segName i) ∧
    (handleStart env apiKey (some vName) targetLang voice m status0 du0 fs0).downloadUrl
        = some ((List.range (min env.segCount m.toNat)).map
            (synthBytes env apiKey targetLang voice)) ∧
    (handleStart env apiKey (some vName) targetLang voice m status0 du0 fs0).trace
        = (if env.ffmpegLoaded then [] else [Step.preparing]) ++
            [Step.extracting, Step.segmenting, Step.transcribing,
              Step.concatenating, Step.muxing, Step.done] ∧
    (handleStart env apiKey (some vName) targetLang voice m status0 du0 fs0).status
        = Step.done := by
  have hinput : isSegFile (if webmExt.isSuffixOf vName then inputWebm else inputMp4)
      = false := by
    have h1 : isSegFile inputWebm = false := by decide
    have h2 : isSegFile inputMp4 = false := by decide
    cases hsf : webmExt.isSuffixOf vName
    · simpa [hsf] using h2
    · simpa [hsf] using h1
  have hclean4 : ∀ n' ∈ fsNames (fsDelete segmentsTxt (fsWrite audioWav (FData.bytes 0)
      (fsWrite (if webmExt.isSuffixOf vName then inputWebm else inputMp4) (FData.bytes 0)
        (fsDelete audioWav (fsDelete inputMp4 fs0))))), isSegFile n' = false := by
    refine clean_fsDelete _ _ (clean_fsWrite _ _ _
      (clean_fsWrite _ _ _ (clean_fsDelete _ _ (clean_fsDelete _ _ hclean)) hinput)
      (by decide))
  have hfiles : listSegFiles (execSegment env (fsDelete segmentsTxt
      (fsWrite audioWav (FData.bytes 0)
        (fsWrite (if webmExt.isSuffixOf vName then inputWebm else inputMp4) (FData.bytes 0)
          (fsDelete audioWav (fsDelete inputMp4 fs0)))))) =
      (List.range env.segCount).map segName :=
    listSegFiles_segFold env env.segCount hk2 _ hclean4
  have hfne : ¬ ((List.range env.segCount).map segName = []) := by
    simp only [List.map_eq_nil_iff, List.range_eq_nil]
    omega
  have hbudget : budget ((List.range env.segCount).map segName) m =
      (List.range (min env.segCount m.toNat)).map segName := by
    rw [budget_take _ m (by omega), List.length_map, List.length_range,
      ← List.map_take, List.take_range]
    have hmm2 : min (min env.segCount m.toNat) env.segCount =
        min env.segCount m.toNat := by omega
    rw [hmm2]
  obtain ⟨fsF, heq, hlook, hframe⟩ :=
    processSegments_ok env apiKey targetLang voice hT hTr hS
      (List.range (min env.segCount m.toNat))
      (execSegment env (fsDelete segmentsTxt (fsWrite audioWav (FData.bytes 0)
        (fsWrite (if webmExt.isSuffixOf vName then inputWebm else inputMp4) (FData.bytes 0)
          (fsDelete audioWav (fsDelete inputMp4 fs0)))))) []
      (fun i hi => by have := List.mem_range.mp hi; omega)
      (List.nodup_range _)
      (fun i hi => by
        have hi2 := List.mem_range.mp hi
        exact segFold_lookup env env.segCount hk2 _ i (by omega))
  simp only [List.nil_append] at heq
  have hmux := concatMux_track (List.range (min env.segCount m.toNat))
    (synthBytes env apiKey targetLang voice) fsF
    (by intro h0; have := List.range_eq_nil.mp h0; omega) hlook
  refine ⟨?_, ?_, ?_, ?_, ?_, ?_, ?_⟩
  all_goals simp only [handleStart, if_neg hkey]
  all_goals rw [hfiles, if_neg hfne, hbudget, heq]
  all_goals try dsimp only
  all_goals first
    | rfl
    | rw [hmux]
    | simp

/-! ### Run-level invariants across all exit paths -/

theorem run_shape (env : Env) (apiKey : JStr) (videoName : Option JStr)
    (targetLang voice : JStr) (m : Int) (status0 : Step)
    (du0 : Option (List Nat)) (fs0 : FS) :
    (handleStart env apiKey videoName targetLang voice m status0 du0 fs0).downloadUrl
        = none ∨
    ((handleStart env apiKey videoName targetLang voice m status0 du0 fs0).result
        = Except.ok () ∧
     (handleStart env apiKey videoName targetLang voice m status0 du0 fs0).status
        = Step.done) := by
  simp only [handleStart]
  repeat' split
  all_goals try (first | exact Or.inl rfl | exact Or.inr ⟨rfl, rfl⟩)
  all_goals split
  all_goals first
    | exact Or.inl rfl
    | exact Or.inr ⟨rfl, rfl⟩

theorem run_artifact_inv (env : Env) (apiKey : JStr) (videoName : Option JStr)
    (targetLang voice : JStr) (m : Int) (status0 : Step)
    (du0 : Option (List Nat)) (fs0 : FS) :
    (∀ e, (handleStart env apiKey videoName targetLang voice m status0 du0 fs0).result
          = Except.error e →
        (handleStart env apiKey videoName targetLang voice m status0 du0 fs0).downloadUrl
          = none) ∧
    (∀ d, (handleStart env apiKey videoName targetLang voice m status0 du0 fs0).downloadUrl
          = some d →
        (handleStart env apiKey videoName targetLang voice m status0 du0 fs0).result
          = Except.ok () ∧
        (handleStart env apiKey videoName targetLang voice m status0 du0 fs0).status
          = Step.done) := by
  constructor
  · intro e he
    rcases run_shape env apiKey videoName targetLang voice m status0 du0 fs0 with h | ⟨hok, _⟩
    · exact h
    · rw [he] at hok
      exact absurd hok (by simp)
  · intro d hd
    rcases run_shape env apiKey videoName targetLang voice m status0 du0 fs0 with h | h
    · rw [h] at hd
      exact absurd hd (by simp)
    · exact h

theorem run_used_take (env : Env) (apiKey : JStr) (videoName : Option JStr)
    (targetLang voice : JStr) (m : Int) (status0 : Step)
    (du0 : Option (List Nat)) (fs0 : FS) (hm : 0 ≤ m) :
    (handleStart env apiKey videoName targetLang voice m status0 du0 fs0).usedSegments =
      (handleStart env apiKey videoName targetLang voice m status0 du0 fs0).files.take
        (min (handleStart env apiKey videoName targetLang voice m status0 du0 fs0).files.length
          m.toNat) := by
  simp only [handleStart]
  repeat' split
  all_goals try split
  all_goals try split
  all_goals first
    | (rw [budget_take _ _ hm])
    | simp [*]

theorem prep_clean (vName : JStr) (fs0 : FS)
    (hclean : ∀ n ∈ fsNames fs0, isSegFile n = false) :
    ∀ n' ∈ fsNames (fsDelete segmentsTxt (fsWrite audioWav (FData.bytes 0)
      (fsWrite (if webmExt.isSuffixOf vName then inputWebm else inputMp4) (FData.bytes 0)
        (fsDelete audioWav (fsDelete inputMp4 fs0))))), isSegFile n' = false := by
  have h1 : isSegFile inputWebm = false := by decide
  have h2 : isSegFile inputMp4 = false := by decide
  have hinput : isSegFile (if webmExt.isSuffixOf vName then inputWebm else inputMp4)
      = false := by
    cases hsf : webmExt.isSuffixOf vName
    · simpa [hsf] using h2
    · simpa [hsf] using h1
  exact clean_fsDelete _ _ (clean_fsWrite _ _ _
    (clean_fsWrite _ _ _ (clean_fsDelete _ _ (clean_fsDelete _ _ hclean)) hinput)
    (by decide))

theorem run_no_segments (env : Env) (apiKey vName targetLang voice : JStr)
    (m : Int) (status0 : Step) (du0 : Option (List Nat)) (fs0 : FS)
    (hkey : ¬ apiKey = [])
    (hclean : ∀ n ∈ fsNames fs0, isSegFile n = false)
    (hk : env.segCount = 0) :
    (handleStart env apiKey (some vName) targetLang voice m status0 du0 fs0).result
        = Except.error RunError.noSegmentsProduced ∧
    (handleStart env apiKey (some vName) targetLang voice m status0 du0 fs0).status
        = Step.segmenting := by
  have hseg : execSegment env (fsDelete segmentsTxt (fsWrite audioWav (FData.bytes 0)
      (fsWrite (if webmExt.isSuffixOf vName then inputWebm else inputMp4) (FData.bytes 0)
        (fsDelete audioWav (fsDelete inputMp4 fs0))))) =
      fsDelete segmentsTxt (fsWrite audioWav (FData.bytes 0)
        (fsWrite (if webmExt.isSuffixOf vName then inputWebm else inputMp4) (FData.bytes 0)
          (fsDelete audioWav (fsDelete inputMp4 fs0)))) := by
    unfold execSegment
    rw [hk]
    rfl
  have hfe : listSegFiles (fsDelete segmentsTxt (fsWrite audioWav (FData.bytes 0)
      (fsWrite (if webmExt.isSuffixOf vName then inputWebm else inputMp4) (FData.bytes 0)
        (fsDelete audioWav (fsDelete inputMp4 fs0))))) = [] := by
    unfold listSegFiles
    rw [List.filter_eq_nil_iff.mpr
      (fun a ha => by simp [prep_clean vName fs0 hclean a ha])]
    rfl
  constructor
  all_goals simp only [handleStart, if_neg hkey]
  all_goals rw [hseg, hfe, if_pos rfl]

theorem run_some_segments (env : Env) (apiKey vName targetLang voice : JStr)
    (m : Int) (status0 : Step) (du0 : Option (List Nat)) (fs0 : FS)
    (hkey : ¬ apiKey = [])
    (hk : env.segCount ≠ 0) :
    Step.transcribing ∈
      (handleStart env apiKey (some vName) targetLang voice m status0 du0 fs0).trace := by
  have hne : listSegFiles (execSegment env (fsDelete segmentsTxt
      (fsWrite audioWav (FData.bytes 0)
        (fsWrite (if webmExt.isSuffixOf vName then inputWebm else inputMp4) (FData.bytes 0)
          (fsDelete audioWav (fsDelete inputMp4 fs0)))))) ≠ [] := by
    unfold listSegFiles
    intro h0
    apply segFold_filter_ne_nil env env.segCount (fsDelete segmentsTxt
      (fsWrite audioWav (FData.bytes 0)
        (fsWrite (if webmExt.isSuffixOf vName then inputWebm else inputMp4) (FData.bytes 0)
          (fsDelete audioWav (fsDelete inputMp4 fs0))))) hk
    have hl := congrArg List.length h0
    rw [sortJs_length] at hl
    exact List.length_eq_zero.mp hl
  simp only [handleStart, if_neg hkey]
  rw [if_neg hne]
  split
  · simp
  · simp

/-! ### Service-call error behaviour -/

theorem transcribe_error_iff (env : Env) (apiKey : JStr) (b s : Nat) :
    transcribeWithOpenAI env apiKey b
        = Except.error (RunError.transcriptionFailed s) ↔
      respOk (env.transcribeResp apiKey b) = false ∧
        s = (env.transcribeResp apiKey b).status := by
  unfold transcribeWithOpenAI
  cases hok : respOk (env.transcribeResp apiKey b) <;> simp [hok, eq_comm]

theorem translate_error_iff (env : Env) (apiKey t targetLang : JStr) (s : Nat) :
    translateWithOpenAI env apiKey t targetLang
        = Except.error (RunError.translationFailed s) ↔
      respOk (env.translateResp apiKey t targetLang) = false ∧
        s = (env.translateResp apiKey t targetLang).status := by
  unfold translateWithOpenAI
  cases hok : respOk (env.translateResp apiKey t targetLang) <;> simp [hok, eq_comm]

theorem tts_error_iff (env : Env) (apiKey t voice : JStr) (s : Nat) :
    ttsWithOpenAI env apiKey t voice = Except.error (RunError.ttsFailed s) ↔
      respOk (env.ttsResp apiKey t voice) = false ∧
        s = (env.ttsResp apiKey t voice).status := by
  unfold ttsWithOpenAI
  cases hok : respOk (env.ttsResp apiKey t voice) <;> simp [hok, eq_comm]

theorem processSegments_stop (env : Env) (apiKey targetLang voice sName : JStr)
    (rest : List JStr) (fs : FS) (acc : List JStr) (e : RunError)
    (h : dubChunk env apiKey targetLang voice fs sName = Except.error e) :
    processSegments env apiKey targetLang voice (sName :: rest) fs acc
      = (fs, acc, some e) := by
  simp [processSegments, h]

/-! ### Concrete environments used in the evaluations and witnesses -/

/-- An environment whose media engine segments the audio into 3 chunks and
whose three services always answer 200. -/
def envAllOk : Env where
  ffmpegLoaded := false
  chunkData := fun i => i
  segCount := 3
  transcribeResp := fun _ b => ⟨200, [b]⟩
  translateResp := fun _ t _ => ⟨200, some t⟩
  ttsResp := fun _ t _ => ⟨200, t.length⟩

/-- Like `envAllOk` but the transcription service answers 401. -/
def env401 : Env := { envAllOk with transcribeResp := fun _ _ => ⟨401, []⟩ }

/-- Like `envAllOk` but segmentation yields 5 chunks. -/
def env5seg : Env := { envAllOk with segCount := 5 }

/-- Like `envAllOk` but segmentation yields 1 chunk. -/
def env1seg : Env := { envAllOk with segCount := 1 }

/-- Like `envAllOk` but segmentation yields no chunk at all. -/
def env0seg : Env := { envAllOk with segCount := 0 }

/-- Like `envAllOk` but the translation service answers 200 with no content
field. -/
def envNoContent : Env :=
  { envAllOk with translateResp := fun _ _ _ => ⟨200, none⟩ }

/-- The virtual filesystem left behind by a completed 3-chunk run on an
empty working area. -/
def runOneFs : FS :=
  (handleStart envAllOk [107] (some [118]) [101, 115] [97] 45 Step.idle none []).fs


/-! ### Decimal digits in general, and `segName` injectivity at every index -/

theorem digitsOfAux_fuel : ∀ n f : Nat, n ≤ f → digitsOfAux f n = digitsOf n := by
  intro n
  induction n using Nat.strong_induction_on with
  | _ n ih =>
    intro f hf
    by_cases h10 : n < 10
    · rw [digitsOfAux_small f n h10, digitsOf_small n h10]
    · rw [digitsOfAux_ge f n (by omega) hf]
      unfold digitsOf
      rw [digitsOfAux_ge n n (by omega) (Nat.le_refl n)]
      rw [ih (n / 10) (by omega) (f - 1) (by omega),
        ih (n / 10) (by omega) (n - 1) (by omega)]

theorem digitsOf_ge (n : Nat) (h : 10 ≤ n) :
    digitsOf n = digitsOf (n / 10) ++ [n % 10] := by
  have h1 : digitsOf n = digitsOfAux (n - 1) (n / 10) ++ [n % 10] :=
    digitsOfAux_ge n n h (Nat.le_refl n)
  rw [h1, digitsOfAux_fuel (n / 10) (n - 1) (by omega)]

theorem digitsOf_foldl (n : Nat) :
    (digitsOf n).foldl (fun a d => a * 10 + d) 0 = n := by
  induction n using Nat.strong_induction_on with
  | _ n ih =>
    by_cases h10 : n < 10
    · rw [digitsOf_small n h10]
      simp
    · rw [digitsOf_ge n (by omega), List.foldl_append, ih (n / 10) (by omega)]
      show n / 10 * 10 + n % 10 = n
      omega

theorem digitsOf_inj {m n : Nat} (h : digitsOf m = digitsOf n) : m = n := by
  have hm := digitsOf_foldl m
  rw [h, digitsOf_foldl] at hm
  omega

theorem digitsOf_length_pos (n : Nat) : 1 ≤ (digitsOf n).length := by
  by_cases h10 : n < 10
  · rw [digitsOf_small n h10]
    simp
  · rw [digitsOf_ge n (by omega)]
    simp

theorem digitsOf_length_ge_four (n : Nat) (h : 1000 ≤ n) :
    4 ≤ (digitsOf n).length := by
  have e1 : digitsOf n = digitsOf (n / 10) ++ [n % 10] := digitsOf_ge n (by omega)
  have e2 : digitsOf (n / 10) = digitsOf (n / 10 / 10) ++ [n / 10 % 10] :=
    digitsOf_ge (n / 10) (by omega)
  have e3 : digitsOf (n / 10 / 10)
      = digitsOf (n / 10 / 10 / 10) ++ [n / 10 / 10 % 10] :=
    digitsOf_ge (n / 10 / 10) (by omega)
  rw [e1, e2, e3]
  simp only [List.length_append, List.length_cons, List.length_nil]
  have := digitsOf_length_pos (n / 10 / 10 / 10)
  omega

theorem pad3_len3 (n : Nat) (h : n < 1000) : (pad3 n).length = 3 := by
  rw [pad3_eq n h]
  rfl

theorem pad3_big (n : Nat) (h : 1000 ≤ n) : pad3 n = digitsOf n := by
  unfold pad3
  have h4 := digitsOf_length_ge_four n h
  have h0 : 3 - (digitsOf n).length = 0 := by omega
  rw [h0]
  simp

theorem pad3_inj {m n : Nat} (h : pad3 m = pad3 n) : m = n := by
  by_cases hm : m < 1000
  · by_cases hn : n < 1000
    · rw [pad3_eq m hm, pad3_eq n hn] at h
      simp at h
      omega
    · exfalso
      have hl := congrArg List.length h
      rw [pad3_len3 m hm, pad3_big n (by omega)] at hl
      have := digitsOf_length_ge_four n (by omega)
      omega
  · by_cases hn : n < 1000
    · exfalso
      have hl := congrArg List.length h
      rw [pad3_len3 n hn, pad3_big m (by omega)] at hl
      have := digitsOf_length_ge_four m (by omega)
      omega
    · rw [pad3_big m (by omega), pad3_big n (by omega)] at h
      exact digitsOf_inj h

theorem segName_inj_all {m n : Nat} (h : segName m = segName n) : m = n := by
  apply pad3_inj
  unfold segName at h
  simp [segUnderscore] at h
  exact List.map_injective_iff.mpr (fun a b hab => by omega) h

theorem segFold_filter_all (env : Env) :
    ∀ k : Nat, ∀ fs : FS,
    (∀ m ∈ fsNames fs, isSegFile m = false) →
    (fsNames ((List.range k).foldl
        (fun f i => fsWrite (segName i) (FData.bytes (env.chunkData i)) f) fs)).filter
        isSegFile =
      (List.range k).map segName := by
  intro k
  induction k with
  | zero =>
    intro fs h
    simp only [List.range_zero, List.foldl_nil, List.map_nil]
    exact List.filter_eq_nil_iff.mpr fun a ha => by simp [h a ha]
  | succ k ih =>
    intro fs h
    rw [List.range_succ, List.foldl_append, List.foldl_cons, List.foldl_nil]
    have hF := ih fs h
    have hnot : segName k ∉ fsNames ((List.range k).foldl
        (fun f i => fsWrite (segName i) (FData.bytes (env.chunkData i)) f) fs) := by
      intro hmem
      have hmf : segName k ∈ ((fsNames ((List.range k).foldl
          (fun f i => fsWrite (segName i) (FData.bytes (env.chunkData i)) f) fs)).filter
          isSegFile) :=
        List.mem_filter.mpr ⟨hmem, isSegFile_segName k⟩
      rw [hF] at hmf
      obtain ⟨j, hj, hjeq⟩ := List.mem_map.mp hmf
      have hjk : j < k := List.mem_range.mp hj
      have : j = k := segName_inj_all hjeq
      omega
    rw [fsNames_write, fsDelete_of_not_mem _ _ hnot, List.filter_append, hF]
    simp [isSegFile_segName]

/-! ### The JS default string order is a strict total order, and `sortJs`
sorts by it -/

theorem lexLt_asymm : ∀ a b : JStr, lexLt a b = true → lexLt b a = false := by
  intro a
  induction a with
  | nil =>
    intro b h
    cases b with
    | nil => exact absurd h (by simp [lexLt])
    | cons y ys => rfl
  | cons x xs ih =>
    intro b h
    cases b with
    | nil => exact absurd h (by simp [lexLt])
    | cons y ys =>
      rw [lexLt_cons] at h
      rw [lexLt_cons]
      by_cases hxy : x < y
      · rw [if_neg (by omega), if_pos hxy]
      · by_cases hyx : y < x
        · rw [if_neg hxy, if_pos hyx] at h
          exact absurd h (by simp)
        · rw [if_neg hxy, if_neg hyx] at h
          rw [if_neg hyx, if_neg hxy]
          exact ih ys h

theorem lexLt_trans : ∀ a b c : JStr,
    lexLt a b = true → lexLt b c = true → lexLt a c = true := by
  intro a
  induction a with
  | nil =>
    intro b c h1 h2
    cases b with
    | nil => exact absurd h1 (by simp [lexLt])
    | cons y ys =>
      cases c with
      | nil => exact absurd h2 (by simp [lexLt])
      | cons z zs => rfl
  | cons x xs ih =>
    intro b c h1 h2
    cases b with
    | nil => exact absurd h1 (by simp [lexLt])
    | cons y ys =>
      cases c with
      | nil => exact absurd h2 (by simp [lexLt])
      | cons z zs =>
        rw [lexLt_cons] at h1 h2 ⊢
        by_cases hxy : x < y
        · by_cases hyz : y < z
          · rw [if_pos (by omega)]
          · by_cases hzy : z < y
            · rw [if_neg hyz, if_pos hzy] at h2
              exact absurd h2 (by simp)
            · rw [if_pos (by omega)]
        · by_cases hyx : y < x
          · rw [if_neg hxy, if_pos hyx] at h1
            exact absurd h1 (by simp)
          · have hxy2 : x = y := by omega
            subst hxy2
            rw [if_neg hxy, if_neg hyx] at h1
            by_cases hxz : x < z
            · rw [if_pos hxz]
            · by_cases hzx : z < x
              · rw [if_neg hxz, if_pos hzx] at h2
                exact absurd h2 (by simp)
              · rw [if_neg hxz, if_neg hzx] at h2 ⊢
                exact ih ys zs h1 h2

theorem lexLt_connex : ∀ a b : JStr, a ≠ b →
    lexLt a b = true ∨ lexLt b a = true := by
  intro a
  induction a with
  | nil =>
    intro b hne
    cases b with
    | nil => exact absurd rfl hne
    | cons y ys => exact Or.inl rfl
  | cons x xs ih =>
    intro b hne
    cases b with
    | nil => exact Or.inr rfl
    | cons y ys =>
      by_cases hxy : x < y
      · exact Or.inl (by rw [lexLt_cons, if_pos hxy])
      · by_cases hyx : y < x
        · exact Or.inr (by rw [lexLt_cons, if_pos hyx])
        · have hxy2 : x = y := by omega
          subst hxy2
          have hne2 : xs ≠ ys := fun hh => hne (by rw [hh])
          rcases ih ys hne2 with h | h
          · exact Or.inl (by rw [lexLt_cons_same]; exact h)
          · exact Or.inr (by rw [lexLt_cons_same]; exact h)

theorem lexLe_total (a b : JStr) : lexLe a b = true ∨ lexLe b a = true := by
  unfold lexLe
  cases hab : lexLt b a
  · exact Or.inl rfl
  · right
    rw [lexLt_asymm b a hab]
    rfl

theorem lexLe_trans (a b c : JStr) (h1 : lexLe a b = true)
    (h2 : lexLe b c = true) : lexLe a c = true := by
  unfold lexLe at h1 h2 ⊢
  simp only [Bool.not_eq_true'] at h1 h2 ⊢
  cases hca : lexLt c a
  · rfl
  · exfalso
    by_cases hab : a = b
    · subst hab
      rw [hca] at h2
      exact absurd h2 (by simp)
    · rcases lexLt_connex a b hab with h | h
      · have := lexLt_trans c a b hca h
        rw [this] at h2
        exact absurd h2 (by simp)
      · rw [h] at h1
        exact absurd h1 (by simp)

theorem mem_insertLe (x : JStr) (l : List JStr) (z : JStr) :
    z ∈ insertLe x l ↔ z = x ∨ z ∈ l := by
  induction l with
  | nil => simp [insertLe]
  | cons y ys ih =>
    rw [insertLe]
    split
    · simp [List.mem_cons]
    · simp [List.mem_cons, ih]
      tauto

theorem mem_sortJs (l : List JStr) (z : JStr) : z ∈ sortJs l ↔ z ∈ l := by
  induction l with
  | nil => simp [sortJs]
  | cons x xs ih =>
    rw [sortJs, mem_insertLe]
    simp [ih]

theorem insertLe_pairwise (x : JStr) (l : List JStr)
    (h : l.Pairwise (fun a b => lexLe a b = true)) :
    (insertLe x l).Pairwise (fun a b => lexLe a b = true) := by
  induction l with
  | nil => simp [insertLe]
  | cons y ys ihl =>
    rw [List.pairwise_cons] at h
    rw [insertLe]
    split
    · rename_i hxy
      rw [List.pairwise_cons]
      constructor
      · intro z hz
        rcases List.mem_cons.mp hz with rfl | hz
        · exact hxy
        · exact lexLe_trans x y z hxy (h.1 z hz)
      · exact List.pairwise_cons.mpr h
    · rename_i hxy
      have hyx : lexLe y x = true := by
        rcases lexLe_total x y with hh | hh
        · exact absurd hh hxy
        · exact hh
      rw [List.pairwise_cons]
      constructor
      · intro z hz
        rcases (mem_insertLe x ys z).mp hz with rfl | hz
        · exact hyx
        · exact h.1 z hz
      · exact ihl h.2

theorem sortJs_sorted (l : List JStr) :
    (sortJs l).Pairwise (fun a b => lexLe a b = true) := by
  induction l with
  | nil => simp [sortJs]
  | cons x xs ih => exact insertLe_pairwise x (sortJs xs) ih

/-! ### The `files` and `usedSegments` a run computes, on any exit of the
per-chunk stage -/

theorem run_files_used (env : Env) (apiKey vName targetLang voice : JStr)
    (m : Int) (status0 : Step) (du0 : Option (List Nat)) (fs0 : FS)
    (hkey : ¬ apiKey = [])
    (hne : listSegFiles (execSegment env (fsDelete segmentsTxt
      (fsWrite audioWav (FData.bytes 0)
        (fsWrite (if webmExt.isSuffixOf vName then inputWebm else inputMp4) (FData.bytes 0)
          (fsDelete audioWav (fsDelete inputMp4 fs0)))))) ≠ []) :
    (handleStart env apiKey (some vName) targetLang voice m status0 du0 fs0).files
        = listSegFiles (execSegment env (fsDelete segmentsTxt
            (fsWrite audioWav (FData.bytes 0)
              (fsWrite (if webmExt.isSuffixOf vName then inputWebm else inputMp4) (FData.bytes 0)
                (fsDelete audioWav (fsDelete inputMp4 fs0)))))) ∧
    (handleStart env apiKey (some vName) targetLang voice m status0 du0 fs0).usedSegments
        = budget (listSegFiles (execSegment env (fsDelete segmentsTxt
            (fsWrite audioWav (FData.bytes 0)
              (fsWrite (if webmExt.isSuffixOf vName then inputWebm else inputMp4) (FData.bytes 0)
                (fsDelete audioWav (fsDelete inputMp4 fs0))))))) m := by
  simp only [handleStart, if_neg hkey]
  rw [if_neg hne]
  split
  · exact ⟨rfl, rfl⟩
  · exact ⟨rfl, rfl⟩

/-- Like `envAllOk` but segmentation yields 1001 chunks (a bit under 17
hours of audio at 60 s per chunk). -/
def env1001 : Env := { envAllOk with segCount := 1001 }

/-! ### Claims -/

/-- C1 (amended): for every run that reaches the per-chunk stage
(non-empty API key, clean working area, positive minute budget, services
answering successfully) whose segmentation yields between 1 and 1000
chunks — the range in which the `%03d` naming is fixed-width, so the
lexicographic listing order equals index order — each processed audio
chunk yields exactly one synthesized chunk whose name carries the same
zero-padded sequence index (`tts_` ++ chunk name), in the same order, and
the assembled dubbed track written to the final artifact is exactly the
synthesized payloads in the chunks' index order, with no gaps and no
reordering.  Beyond 1000 chunks the listing order itself breaks
(`c1_order_counterexample`). -/
theorem c1_dubbing_bijection_order (env : Env) (apiKey vName targetLang voice : JStr)
    (m : Int) (status0 : Step) (du0 : Option (List Nat)) (fs0 : FS)
    (hkey : ¬ apiKey = [])
    (hclean : ∀ n ∈ fsNames fs0, isSegFile n = false)
    (hk1 : 1 ≤ env.segCount) (hk2 : env.segCount ≤ 1000)
    (hm : 1 ≤ m)
    (hT : ∀ b, respOk (env.transcribeResp apiKey b) = true)
    (hTr : ∀ t, respOk (env.translateResp apiKey t targetLang) = true)
    (hS : ∀ t, respOk (env.ttsResp apiKey t voice) = true) :
    (handleStart env apiKey (some vName) targetLang voice m status0 du0 fs0).result
        = Except.ok () ∧
    (handleStart env apiKey (some vName) targetLang voice m status0 du0 fs0).usedSegments
        = (List.range (min env.segCount m.toNat)).map segName ∧
    (handleStart env apiKey (some vName) targetLang voice m status0 du0 fs0).dubbedSegmentNames
        = (handleStart env apiKey (some vName) targetLang voice m status0 du0 fs0).usedSegments.map
            (fun n => ttsTag ++ n) ∧
    (handleStart env apiKey (some vName) targetLang voice m status0 du0 fs0).downloadUrl
        = some ((List.range (min env.segCount m.toNat)).map
            (synthBytes env apiKey targetLang voice)) := by
  obtain ⟨h1, _, h3, h4, h5, _, _⟩ :=
    run_ok env apiKey vName targetLang voice m status0 du0 fs0 hkey hclean hk1 hk2 hm hT hTr hS
  refine ⟨h1, h3, ?_, h5⟩
  rw [h4, h3, List.map_map]
  rfl

/-- Witness for C1 at a concrete run: three 60-second chunks, budget 45,
all services succeed; the three synthesized chunks come back in order and
the artifact's audio track is their concatenation. -/
theorem c1_dubbing_bijection_order_witness :
    (handleStart envAllOk [107] (some [118]) [101, 115] [97] 45 Step.idle none []).result
        = Except.ok () ∧
    (handleStart envAllOk [107] (some [118]) [101, 115] [97] 45 Step.idle none []).usedSegments
        = (List.range (min envAllOk.segCount (45 : Int).toNat)).map segName ∧
    (handleStart envAllOk [107] (some [118]) [101, 115] [97] 45 Step.idle none []).dubbedSegmentNames
        = (handleStart envAllOk [107] (some [118]) [101, 115] [97] 45 Step.idle none []).usedSegments.map
            (fun n => ttsTag ++ n) ∧
    (handleStart envAllOk [107] (some [118]) [101, 115] [97] 45 Step.idle none []).downloadUrl
        = some ((List.range (min envAllOk.segCount (45 : Int).toNat)).map
            (synthBytes envAllOk [107] [101, 115] [97])) :=
  c1_dubbing_bijection_order envAllOk [107] [118] [101, 115] [97] 45 Step.idle none []
    (by decide) (fun n hn => absurd hn (List.not_mem_nil n))
    (by decide) (by decide) (by decide)
    (fun b => rfl) (fun t => rfl) (fun t => rfl)

/-- C1 counterexample: the claim as stated is false for a run whose
segmentation yields 1001 chunks.  The run reaches the per-chunk stage and
every listed chunk is processed (full budget), yet the processed sequence
is not the chunks' index order: `seg_1000.wav` is among the processed
chunks but the lexicographically sorted listing that drives the loop — and
hence the concatenation order of the synthesized chunks — differs from
index order (`seg_1000.wav` sorts before `seg_101.wav … seg_999.wav`), so
the dubbed track is assembled with reordering. -/
theorem c1_order_counterexample :
    Step.transcribing ∈
      (handleStart env1001 [107] (some [118]) [101, 115] [97] 1001 Step.idle none []).trace ∧
    (handleStart env1001 [107] (some [118]) [101, 115] [97] 1001 Step.idle none []).files.length
        = 1001 ∧
    (handleStart env1001 [107] (some [118]) [101, 115] [97] 1001 Step.idle none []).usedSegments
        = (handleStart env1001 [107] (some [118]) [101, 115] [97] 1001 Step.idle none []).files ∧
    segName 1000 ∈
      (handleStart env1001 [107] (some [118]) [101, 115] [97] 1001 Step.idle none []).usedSegments ∧
    (handleStart env1001 [107] (some [118]) [101, 115] [97] 1001 Step.idle none []).usedSegments
        ≠ (List.range 1001).map segName := by
  have hkey : ¬ ([107] : JStr) = [] := by decide
  have hclean : ∀ n ∈ fsNames ([] : FS), isSegFile n = false :=
    fun n hn => absurd hn (List.not_mem_nil n)
  have hfa : (fsNames (execSegment env1001 (fsDelete segmentsTxt
      (fsWrite audioWav (FData.bytes 0)
        (fsWrite (if webmExt.isSuffixOf [118] then inputWebm else inputMp4) (FData.bytes 0)
          (fsDelete audioWav (fsDelete inputMp4 ([] : FS)))))))).filter isSegFile
      = (List.range 1001).map segName :=
    segFold_filter_all env1001 1001 _ (prep_clean [118] [] hclean)
  have hfiles : listSegFiles (execSegment env1001 (fsDelete segmentsTxt
      (fsWrite audioWav (FData.bytes 0)
        (fsWrite (if webmExt.isSuffixOf [118] then inputWebm else inputMp4) (FData.bytes 0)
          (fsDelete audioWav (fsDelete inputMp4 ([] : FS)))))))
      = sortJs ((List.range 1001).map segName) := by
    unfold listSegFiles
    rw [hfa]
  have hlen : (listSegFiles (execSegment env1001 (fsDelete segmentsTxt
      (fsWrite audioWav (FData.bytes 0)
        (fsWrite (if webmExt.isSuffixOf [118] then inputWebm else inputMp4) (FData.bytes 0)
          (fsDelete audioWav (fsDelete inputMp4 ([] : FS)))))))).length = 1001 := by
    rw [hfiles, sortJs_length, List.length_map, List.length_range]
  have hne0 : listSegFiles (execSegment env1001 (fsDelete segmentsTxt
      (fsWrite audioWav (FData.bytes 0)
        (fsWrite (if webmExt.isSuffixOf [118] then inputWebm else inputMp4) (FData.bytes 0)
          (fsDelete audioWav (fsDelete inputMp4 ([] : FS))))))) ≠ [] := by
    intro h0
    rw [h0] at hlen
    simp at hlen
  obtain ⟨hfl, hused⟩ :=
    run_files_used env1001 [107] [118] [101, 115] [97] 1001 Step.idle none [] hkey hne0
  have hbud : budget (listSegFiles (execSegment env1001 (fsDelete segmentsTxt
      (fsWrite audioWav (FData.bytes 0)
        (fsWrite (if webmExt.isSuffixOf [118] then inputWebm else inputMp4) (FData.bytes 0)
          (fsDelete audioWav (fsDelete inputMp4 ([] : FS)))))))) 1001
      = listSegFiles (execSegment env1001 (fsDelete segmentsTxt
          (fsWrite audioWav (FData.bytes 0)
            (fsWrite (if webmExt.isSuffixOf [118] then inputWebm else inputMp4) (FData.bytes 0)
              (fsDelete audioWav (fsDelete inputMp4 ([] : FS))))))) := by
    rw [budget_take _ _ (by decide), hlen,
      show min 1001 (1001 : Int).toNat = 1001 from by decide, ← hlen]
    exact List.take_length _
  have hmem : segName 1000 ∈ listSegFiles (execSegment env1001 (fsDelete segmentsTxt
      (fsWrite audioWav (FData.bytes 0)
        (fsWrite (if webmExt.isSuffixOf [118] then inputWebm else inputMp4) (FData.bytes 0)
          (fsDelete audioWav (fsDelete inputMp4 ([] : FS))))))) := by
    rw [hfiles, mem_sortJs]
    exact List.mem_map.mpr ⟨1000, List.mem_range.mpr (by omega), rfl⟩
  have hneq : listSegFiles (execSegment env1001 (fsDelete segmentsTxt
      (fsWrite audioWav (FData.bytes 0)
        (fsWrite (if webmExt.isSuffixOf [118] then inputWebm else inputMp4) (FData.bytes 0)
          (fsDelete audioWav (fsDelete inputMp4 ([] : FS)))))))
      ≠ (List.range 1001).map segName := by
    intro heq2
    have hsorted := sortJs_sorted ((List.range 1001).map segName)
    rw [← hfiles, heq2] at hsorted
    have hsub : List.Sublist [999, 1000] (List.range 1001) := by
      have hr : List.range 1001 = List.range 999 ++ [999, 1000] := by
        rw [List.range_succ, List.range_succ, List.append_assoc]
        rfl
      rw [hr]
      exact List.sublist_append_right _ _
    have hp := hsorted.sublist (hsub.map segName)
    simp only [List.map_cons, List.map_nil] at hp
    have hle := (List.pairwise_cons.mp hp).1 (segName 1000) (by simp)
    have hfalse : lexLe (segName 999) (segName 1000) = false := rfl
    rw [hfalse] at hle
    exact absurd hle (by simp)
  refine ⟨?_, ?_, ?_, ?_, ?_⟩
  · exact run_some_segments env1001 [107] [118] [101, 115] [97] 1001 Step.idle none []
      hkey (by decide)
  · rw [hfl]
    exact hlen
  · rw [hused, hbud, hfl]
  · rw [hused, hbud]
    exact hmem
  · rw [hused, hbud]
    exact hneq

/-- C2 counterexample: the claim's formula `usedCount = min(T, ceil(maxMinutes))`
fails for a storable `maxMinutes` value.  With 5 segmented chunks and
`maxMinutes = -1` the code slices `files.slice(0, -1)` and passes 4 chunks
downstream, while `min(5, ceil(-1)) = -1`. -/
theorem c2_counterexample :
    (handleStart env5seg [107] (some [118]) [101, 115] [97] (-1) Step.idle none []).files.length
        = 5 ∧
    (handleStart env5seg [107] (some [118]) [101, 115] [97] (-1) Step.idle none []).usedSegments.length
        = 4 ∧
    ¬ ((4 : Int) = min 5 (-1)) :=
  ⟨rfl, rfl, by decide⟩

/-- C2 amended: for every run and every `maxMinutes ≥ 0`, the chunks passed
downstream are exactly the first `min(T, maxMinutes)` chunks of the listed
sequence (one chunk per minute, `ceil` is the identity on the stored
integer), the remaining ones are dropped, and `usedCount ≤ T`. -/
theorem c2_budget_cap (env : Env) (apiKey : JStr) (videoName : Option JStr)
    (targetLang voice : JStr) (m : Int) (status0 : Step)
    (du0 : Option (List Nat)) (fs0 : FS) (hm : 0 ≤ m) :
    (handleStart env apiKey videoName targetLang voice m status0 du0 fs0).usedSegments
        = (handleStart env apiKey videoName targetLang voice m status0 du0 fs0).files.take
            (min (handleStart env apiKey videoName targetLang voice m status0 du0 fs0).files.length
              m.toNat) ∧
    (handleStart env apiKey videoName targetLang voice m status0 du0 fs0).usedSegments.length
        = min (handleStart env apiKey videoName targetLang voice m status0 du0 fs0).files.length
            m.toNat ∧
    (handleStart env apiKey videoName targetLang voice m status0 du0 fs0).usedSegments.length
        ≤ (handleStart env apiKey videoName targetLang voice m status0 du0 fs0).files.length := by
  have h1 := run_used_take env apiKey videoName targetLang voice m status0 du0 fs0 hm
  refine ⟨h1, ?_, ?_⟩
  · rw [h1, List.length_take]
    omega
  · rw [h1, List.length_take]
    omega

/-- Witness for C2 (amended) at a concrete run: 3 chunks, budget 45,
`usedCount = min(3, 45) = 3`. -/
theorem c2_budget_cap_witness :
    (handleStart envAllOk [107] (some [118]) [101, 115] [97] 45 Step.idle none []).usedSegments
        = (handleStart envAllOk [107] (some [118]) [101, 115] [97] 45 Step.idle none []).files.take
            (min (handleStart envAllOk [107] (some [118]) [101, 115] [97] 45 Step.idle none []).files.length
              (45 : Int).toNat) ∧
    (handleStart envAllOk [107] (some [118]) [101, 115] [97] 45 Step.idle none []).usedSegments.length
        = min (handleStart envAllOk [107] (some [118]) [101, 115] [97] 45 Step.idle none []).files.length
            (45 : Int).toNat ∧
    (handleStart envAllOk [107] (some [118]) [101, 115] [97] 45 Step.idle none []).usedSegments.length
        ≤ (handleStart envAllOk [107] (some [118]) [101, 115] [97] 45 Step.idle none []).files.length :=
  c2_budget_cap envAllOk [107] (some [118]) [101, 115] [97] 45 Step.idle none [] (by decide)

/-- C3: evaluation of the run at the failing input the claim is about.
When the transcription service answers HTTP 401 on the first chunk, the
run aborts with `Transcription failed: 401`, but the status is left at
`transcribing`: the `Step` union (layout.tsx lines 32–42) has no `failed`
member and `handleStart` has no handler, so no terminal failed state is
ever entered (and the Start button's disabled-test keeps the UI locked). -/
theorem c3_failure_keeps_stage_status :
    (handleStart env401 [107] (some [118]) [101, 115] [97] 45 Step.idle none []).result
        = Except.error (RunError.transcriptionFailed 401) ∧
    (handleStart env401 [107] (some [118]) [101, 115] [97] 45 Step.idle none []).status
        = Step.transcribing ∧
    (handleStart env401 [107] (some [118]) [101, 115] [97] 45 Step.idle none []).trace
        = [Step.preparing, Step.extracting, Step.segmenting, Step.transcribing] ∧
    (handleStart env401 [107] (some [118]) [101, 115] [97] 45 Step.idle none []).downloadUrl
        = none :=
  ⟨rfl, rfl, rfl, rfl⟩

/-- C4: evaluation of the second run at the failing input the claim is
about.  Run 1 segments into 3 chunks and completes; run 2 (started on run
1's filesystem) segments its own audio into exactly 1 chunk, yet lists and
processes 3 chunk files, because `handleStart` deletes only `input.mp4`,
`audio.wav` and `segments.txt` at run start and `seg_001.wav`/`seg_002.wav`
from run 1 survive into run 2's listing. -/
theorem c4_stale_segments_survive :
    env1seg.segCount = 1 ∧
    (handleStart env1seg [107] (some [118]) [101, 115] [97] 45 Step.done none runOneFs).files
        = [segName 0, segName 1, segName 2] ∧
    (handleStart env1seg [107] (some [118]) [101, 115] [97] 45 Step.done none runOneFs).usedSegments
        = [segName 0, segName 1, segName 2] ∧
    (handleStart env1seg [107] (some [118]) [101, 115] [97] 45 Step.done none runOneFs).dubbedSegmentNames.length
        = 3 :=
  ⟨rfl, rfl, rfl, rfl⟩

/-- C5: each of the three service calls raises an error carrying the HTTP
status exactly when the response is non-success (status outside 200–299);
no call is retried (a chunk's outcome is a single response); the first
failing chunk stops the loop immediately, leaving the filesystem and the
accumulated names untouched and ignoring all remaining chunks; and a run
that ends in any error exposes no download artifact. -/
theorem c5_fail_fast :
    (∀ (env : Env) (apiKey : JStr) (b s : Nat),
      transcribeWithOpenAI env apiKey b
          = Except.error (RunError.transcriptionFailed s) ↔
        respOk (env.transcribeResp apiKey b) = false ∧
          s = (env.transcribeResp apiKey b).status) ∧
    (∀ (env : Env) (apiKey t targetLang : JStr) (s : Nat),
      translateWithOpenAI env apiKey t targetLang
          = Except.error (RunError.translationFailed s) ↔
        respOk (env.translateResp apiKey t targetLang) = false ∧
          s = (env.translateResp apiKey t targetLang).status) ∧
    (∀ (env : Env) (apiKey t voice : JStr) (s : Nat),
      ttsWithOpenAI env apiKey t voice = Except.error (RunError.ttsFailed s) ↔
        respOk (env.ttsResp apiKey t voice) = false ∧
          s = (env.ttsResp apiKey t voice).status) ∧
    (∀ (env : Env) (apiKey targetLang voice sName : JStr) (rest : List JStr)
        (fs : FS) (acc : List JStr) (e : RunError),
      dubChunk env apiKey targetLang voice fs sName = Except.error e →
        processSegments env apiKey targetLang voice (sName :: rest) fs acc
          = (fs, acc, some e)) ∧
    (∀ (env : Env) (apiKey : JStr) (videoName : Option JStr)
        (targetLang voice : JStr) (m : Int) (status0 : Step)
        (du0 : Option (List Nat)) (fs0 : FS) (e : RunError),
      (handleStart env apiKey videoName targetLang voice m status0 du0 fs0).result
          = Except.error e →
        (handleStart env apiKey videoName targetLang voice m status0 du0 fs0).downloadUrl
          = none) :=
  ⟨transcribe_error_iff, translate_error_iff, tts_error_iff,
   processSegments_stop,
   fun env apiKey videoName targetLang voice m status0 du0 fs0 =>
     (run_artifact_inv env apiKey videoName targetLang voice m status0 du0 fs0).1⟩

/-- Witness for C5 at a concrete input: a 401 transcription response is
reported as `Transcription failed: 401`, and the failing run exposes no
artifact. -/
theorem c5_fail_fast_witness :
    (transcribeWithOpenAI env401 [107] 0
        = Except.error (RunError.transcriptionFailed 401) ↔
      respOk (env401.transcribeResp [107] 0) = false ∧
        401 = (env401.transcribeResp [107] 0).status) ∧
    (handleStart env401 [107] (some [118]) [101, 115] [97] 45 Step.idle none []).downloadUrl
        = none :=
  ⟨c5_fail_fast.1 env401 [107] 0 401,
   c5_fail_fast.2.2.2.2 env401 [107] (some [118]) [101, 115] [97] 45 Step.idle none []
     (RunError.transcriptionFailed 401) rfl⟩

/-- C6: on a clean working area, if segmentation yields zero chunks the run
fails with `No segments produced` while still in the segmenting stage;
with at least one chunk the run proceeds to the per-chunk stage (the
`transcribing` status is entered). -/
theorem c6_zero_segments (env : Env) (apiKey vName targetLang voice : JStr)
    (m : Int) (status0 : Step) (du0 : Option (List Nat)) (fs0 : FS)
    (hkey : ¬ apiKey = [])
    (hclean : ∀ n ∈ fsNames fs0, isSegFile n = false) :
    (env.segCount = 0 →
      (handleStart env apiKey (some vName) targetLang voice m status0 du0 fs0).result
          = Except.error RunError.noSegmentsProduced ∧
      (handleStart env apiKey (some vName) targetLang voice m status0 du0 fs0).status
          = Step.segmenting) ∧
    (env.segCount ≠ 0 →
      Step.transcribing ∈
        (handleStart env apiKey (some vName) targetLang voice m status0 du0 fs0).trace) :=
  ⟨fun hk =>
      run_no_segments env apiKey vName targetLang voice m status0 du0 fs0 hkey hclean hk,
    fun hk =>
      run_some_segments env apiKey vName targetLang voice m status0 du0 fs0 hkey hk⟩

/-- Witness for C6: a zero-chunk segmentation aborts with
`No segments produced`; a one-chunk segmentation reaches the per-chunk
stage. -/
theorem c6_zero_segments_witness :
    ((handleStart env0seg [107] (some [118]) [101, 115] [97] 45 Step.idle none []).result
        = Except.error RunError.noSegmentsProduced ∧
     (handleStart env0seg [107] (some [118]) [101, 115] [97] 45 Step.idle none []).status
        = Step.segmenting) ∧
    Step.transcribing ∈
      (handleStart env1seg [107] (some [118]) [101, 115] [97] 45 Step.idle none []).trace :=
  ⟨(c6_zero_segments env0seg [107] [118] [101, 115] [97] 45 Step.idle none []
      (by decide) (fun n hn => absurd hn (List.not_mem_nil n))).1 rfl,
   (c6_zero_segments env1seg [107] [118] [101, 115] [97] 45 Step.idle none []
      (by decide) (fun n hn => absurd hn (List.not_mem_nil n))).2 (by decide)⟩

/-- C7: a success response of the translation service whose content field
is missing (or empty) makes the translation step return the empty string
rather than raise an error, and the per-chunk pipeline passes that empty
string on to the synthesis call. -/
theorem c7_empty_translation (env : Env) (apiKey targetLang voice sN : JStr)
    (fs : FS) (b : Nat)
    (h1 : fsLookup sN fs = some (FData.bytes b))
    (h2 : respOk (env.transcribeResp apiKey b) = true)
    (h3 : respOk (env.translateResp apiKey
        ((env.transcribeResp apiKey b).body) targetLang) = true)
    (h4 : ((env.translateResp apiKey
        ((env.transcribeResp apiKey b).body) targetLang).body).getD [] = []) :
    translateWithOpenAI env apiKey ((env.transcribeResp apiKey b).body) targetLang
        = Except.ok [] ∧
    dubChunk env apiKey targetLang voice fs sN =
      (match ttsWithOpenAI env apiKey [] voice with
        | Except.error e => Except.error e
        | Except.ok buf => Except.ok (ttsTag ++ sN, buf)) := by
  have ht : translateWithOpenAI env apiKey ((env.transcribeResp apiKey b).body) targetLang
      = Except.ok [] := by
    unfold translateWithOpenAI
    simp [h3, h4]
  refine ⟨ht, ?_⟩
  unfold dubChunk
  rw [h1]
  unfold transcribeWithOpenAI
  simp only [h2, if_true]
  rw [ht]

/-- Witness for C7 at a concrete input: the translation service answers
200 with no content, the step returns the empty string and synthesis is
invoked on it. -/
theorem c7_empty_translation_witness :
    translateWithOpenAI envNoContent [107]
        ((envNoContent.transcribeResp [107] 5).body) [101, 115] = Except.ok [] ∧
    dubChunk envNoContent [107] [101, 115] [97] [(segName 0, FData.bytes 5)] (segName 0) =
      (match ttsWithOpenAI envNoContent [107] [] [97] with
        | Except.error e => Except.error e
        | Except.ok buf => Except.ok (ttsTag ++ segName 0, buf)) :=
  c7_empty_translation envNoContent [107] [101, 115] [97] (segName 0)
    [(segName 0, FData.bytes 5)] 5 rfl rfl rfl rfl

/-- C8 counterexample: the `%03d` pad is only three digits wide, so
lexicographic order diverges from numeric order at index 1000:
`seg_1000.wav` sorts strictly before `seg_999.wav`. -/
theorem c8_counterexample :
    lexLt (segName 1000) (segName 999) = true ∧
    sortJs [segName 999, segName 1000] = [segName 1000, segName 999] ∧
    999 < 1000 :=
  ⟨rfl, rfl, by decide⟩

/-- C8 amended: for chunk indices below 1000 (chunk counts up to 1000,
where `%03d` gives a fixed three-digit field), the default lexicographic
string order of the segment file names coincides with numeric index
order. -/
theorem c8_lex_matches_numeric_below_1000 (i j : Nat)
    (hi : i < 1000) (hj : j < 1000) :
    (lexLt (segName i) (segName j) = true) ↔ i < j :=
  segName_lt_iff i j hi hj

/-- Witness for C8 (amended) at concrete indices 3 and 7. -/
theorem c8_lex_matches_numeric_below_1000_witness :
    ((lexLt (segName 3) (segName 7) = true) ↔ 3 < 7) ∧
    (3 : Nat) < 1000 ∧ (7 : Nat) < 1000 :=
  ⟨c8_lex_matches_numeric_below_1000 3 7 (by decide) (by decide), by decide, by decide⟩

/-- C9 counterexample: the input handler stores `parseInt` of the typed
value without clamping, so the user-typed "500" (code units `[53,48,48]`)
is stored as 500, outside [1, 300]. -/
theorem c9_counterexample :
    ¬ (∀ (s : JStr) (n : Int), onMaxMinutesChange s = some n → 1 ≤ n ∧ n ≤ 300) :=
  fun h => absurd ((h [53, 48, 48] 500 rfl).2) (by decide)

/-- C9 amended: `maxMinutes` defaults to 45 and an empty input falls back
to 45, but the stored value is the unclamped `parseInt` of the raw input:
out-of-range integers ("500", "0", "-5") are stored verbatim and a
non-numeric input is stored as NaN. -/
theorem c9_unclamped_parse :
    maxMinutesInit = 45 ∧
    onMaxMinutesChange [] = some 45 ∧
    onMaxMinutesChange [53, 48, 48] = some 500 ∧
    onMaxMinutesChange [48] = some 0 ∧
    onMaxMinutesChange [45, 53] = some (-5) ∧
    onMaxMinutesChange [97] = none :=
  ⟨rfl, rfl, rfl, rfl, rfl, rfl⟩

/-- C10: the download handle is cleared at the start of every run (its
prior value never leaks into the run's outcome), a run that ends in an
error exposes no artifact, and whenever the handle is populated the run
ended normally with status `done`. -/
theorem c10_artifact_only_on_done (env : Env) (apiKey : JStr)
    (videoName : Option JStr) (targetLang voice : JStr) (m : Int)
    (status0 : Step) (du0 : Option (List Nat)) (fs0 : FS) :
    (∀ e, (handleStart env apiKey videoName targetLang voice m status0 du0 fs0).result
          = Except.error e →
        (handleStart env apiKey videoName targetLang voice m status0 du0 fs0).downloadUrl
          = none) ∧
    (∀ d, (handleStart env apiKey videoName targetLang voice m status0 du0 fs0).downloadUrl
          = some d →
        (handleStart env apiKey videoName targetLang voice m status0 du0 fs0).result
          = Except.ok () ∧
        (handleStart env apiKey videoName targetLang voice m status0 du0 fs0).status
          = Step.done) ∧
    (handleStart env apiKey videoName targetLang voice m status0 du0 fs0).downloadUrl
        = (handleStart env apiKey videoName targetLang voice m status0 none fs0).downloadUrl :=
  ⟨(run_artifact_inv env apiKey videoName targetLang voice m status0 du0 fs0).1,
   (run_artifact_inv env apiKey videoName targetLang voice m status0 du0 fs0).2,
   rfl⟩

/-- Witness for C10: a failing run started with a stale prior handle ends
with no artifact; a succeeding run's populated handle implies `done`. -/
theorem c10_artifact_only_on_done_witness :
    (handleStart env401 [107] (some [118]) [101, 115] [97] 45 Step.idle (some [9]) []).downloadUrl
        = none ∧
    ((handleStart envAllOk [107] (some [118]) [101, 115] [97] 45 Step.idle none []).result
        = Except.ok () ∧
     (handleStart envAllOk [107] (some [118]) [101, 115] [97] 45 Step.idle none []).status
        = Step.done) :=
  ⟨(c10_artifact_only_on_done env401 [107] (some [118]) [101, 115] [97] 45 Step.idle
      (some [9]) []).1 (RunError.transcriptionFailed 401) rfl,
   (c10_artifact_only_on_done envAllOk [107] (some [118]) [101, 115] [97] 45 Step.idle
      none []).2.1 [1, 1, 1] rfl⟩
